import Mathlib

/-!
Verification of the IP subnet game: a shallow embedding of the utility module
(IP address parsing, validation, subnet arithmetic) and of the quiz session
state machine, with theorems checking the design claims against the code.

Strings are embedded as lists of characters; JavaScript numbers are embedded
as exact integers (Int / Nat with explicit wrapping modulo 2 ^ 32 where the
source uses 32-bit operators) and each Math.random value as an exact rational
in [0, 1) given by a numerator / denominator pair of naturals.
-/

set_option maxRecDepth 8000

/-- Character-list strings, the embedding of JavaScript strings. -/
abbrev JStr := List Char

/-- Characters of a Lean string literal, used to write concrete inputs. -/
def strChars (s : String) : JStr := s.data

/-- Left-trim of whitespace, as in JavaScript String.prototype.trim. -/
def trimL (cs : JStr) : JStr := cs.dropWhile Char.isWhitespace

/-- Whitespace trim on both ends (JavaScript trim). -/
def jsTrim (cs : JStr) : JStr := ((trimL cs).reverse.dropWhile Char.isWhitespace).reverse

/-- Split on the dot character, as in JavaScript split with separator ".". -/
def splitDot : JStr → List JStr
  | [] => [[]]
  | c :: rest =>
    if c = '.' then [] :: splitDot rest
    else
      match splitDot rest with
      | [] => [[c]]
      | p :: ps => (c :: p) :: ps

/-- Join with the dot character, as in JavaScript Array.prototype.join("."). -/
def joinDot : List JStr → JStr
  | [] => []
  | [p] => p
  | p :: ps => p ++ '.' :: joinDot ps

/-- Value of a run of leading decimal digits (JavaScript parseInt digit loop). -/
def parseDigits (cs : JStr) : Option Nat :=
  let ds := cs.takeWhile Char.isDigit
  if ds = [] then none
  else some (ds.foldl (fun acc c => acc * 10 + (c.toNat - 48)) 0)

/-- The digit run after an optional sign, as a signed integer. -/
def parseSigned (sign : Bool) (cs : JStr) : Option Int :=
  match parseDigits cs with
  | none => none
  | some n => some (if sign then -(n : Int) else (n : Int))

/-- parseInt(s, 10): skip leading whitespace, optional sign, leading decimal
digits; none models NaN. -/
def parseInt10 (cs : JStr) : Option Int :=
  let s := trimL cs
  if s.head? = some '-' then parseSigned true s.tail
  else if s.head? = some '+' then parseSigned false s.tail
  else parseSigned false s

/-- Little-endian digits of n in base b, with explicit fuel so that the
definition is structural and kernel-evaluable. -/
def digitsRevF (b : Nat) : Nat → Nat → List Nat
  | 0, _ => []
  | fuel + 1, n => if n = 0 then [] else n % b :: digitsRevF b fuel (n / b)

/-- Decimal rendering of a natural number (Number.prototype.toString for an
integer value). -/
def natToChars (n : Nat) : JStr :=
  if n = 0 then ['0'] else ((digitsRevF 10 n n).reverse).map Nat.digitChar

/-- Decimal rendering of an integer, with a sign for negative values. -/
def intToChars (i : Int) : JStr :=
  if i < 0 then '-' :: natToChars i.natAbs else natToChars i.toNat

/-- Base-2 rendering of a natural number (Number.prototype.toString(2)). -/
def natToBinChars (n : Nat) : JStr :=
  if n = 0 then ['0'] else ((digitsRevF 2 n n).reverse).map Nat.digitChar

/-- Base-2 rendering of an integer, with a sign for negative values. -/
def intToBinChars (i : Int) : JStr :=
  if i < 0 then '-' :: natToBinChars i.natAbs else natToBinChars i.toNat

/-- padStart(n, c): left-pad with character c up to length n. -/
def padStart (n : Nat) (c : Char) (cs : JStr) : JStr :=
  List.replicate (n - cs.length) c ++ cs

/-- ToUint32 of an exact integer, as a natural number below 2 ^ 32. -/
def toUint32 (n : Int) : Nat := (n % 4294967296).toNat

/-- ToInt32 of an exact integer: the signed 32-bit value congruent to n. -/
def toInt32 (n : Int) : Int :=
  let m : Int := n % 4294967296
  if m < 2147483648 then m else m - 4294967296

/-- 32-bit bitwise AND on wrapped values, defined by structural recursion on
the bit budget so that it is kernel-evaluable. -/
def andBitsF : Nat → Nat → Nat → Nat
  | 0, _, _ => 0
  | f + 1, a, b => 2 * andBitsF f (a / 2) (b / 2) + (a % 2) * (b % 2)

/-- 32-bit bitwise OR on wrapped values, by structural recursion on the bit
budget. -/
def orBitsF : Nat → Nat → Nat → Nat
  | 0, _, _ => 0
  | f + 1, a, b => 2 * orBitsF f (a / 2) (b / 2) + max (a % 2) (b % 2)

/-- 32-bit AND of two natural numbers (values below 2 ^ 32). -/
def and32 (a b : Nat) : Nat := andBitsF 32 a b

/-- 32-bit OR of two natural numbers (values below 2 ^ 32). -/
def or32 (a b : Nat) : Nat := orBitsF 32 a b

/-- The JavaScript binary AND operator on exact integers. -/
def jsAnd (x y : Int) : Int := toInt32 (and32 (toUint32 x) (toUint32 y) : Nat)

/-- The JavaScript binary OR operator on exact integers. -/
def jsOr (x y : Int) : Int := toInt32 (or32 (toUint32 x) (toUint32 y) : Nat)

/-- The JavaScript bitwise NOT operator on exact integers. -/
def jsNot (x : Int) : Int := toInt32 (-(toInt32 x) - 1)

/-- Math.floor(r * m) for a random value r = num / den in [0, 1) (den > 0)
and an exact integer m, computed exactly on naturals. -/
def jsFloorMul (num den : Nat) (m : Int) : Int :=
  if 0 ≤ m then ((num * m.toNat / den : Nat) : Int)
  else -(((num * (-m).toNat + den - 1) / den : Nat) : Int)

/-! ## The utility module (ipUtils): address codec and subnet arithmetic -/

/-- The validation errors produced by validateIpAddress / validateSubnetMask.
Each constructor corresponds to exactly one message string of the source;
indices are 1-based as in the messages. -/
inductive ValidationError where
  | required
  | missingOctets
  | emptyOctet (i : Nat)
  | outOfRange (i : Nat)
  | nonContiguousMask
deriving DecidableEq, Repr

/-- The exact error message text of the source for each validation error. -/
def errMessage : ValidationError → JStr
  | .required => strChars "IP address is required"
  | .missingOctets => strChars "IP address must contain exactly 4 octets"
  | .emptyOctet i =>
      strChars "Octet " ++ natToChars i ++ strChars " cannot be empty"
  | .outOfRange i =>
      strChars "Octet " ++ natToChars i ++ strChars " must be a number between 0 and 255"
  | .nonContiguousMask =>
      strChars "Invalid subnet mask: must be contiguous 1s followed by 0s"

instance exceptDecEq {ε α : Type} [DecidableEq ε] [DecidableEq α] :
    DecidableEq (Except ε α) := fun x y =>
  match x, y with
  | .ok a, .ok b =>
      if h : a = b then .isTrue (by simp [h]) else .isFalse (by simp [h])
  | .ok _, .error _ => .isFalse (by simp)
  | .error _, .ok _ => .isFalse (by simp)
  | .error e, .error e' =>
      if h : e = e' then .isTrue (by simp [h]) else .isFalse (by simp [h])

/-- One octet of normalizeIpAddress: trim, and strip leading zeros by a
parseInt / toString round trip when the trimmed octet parses. -/
def normOctet (octet : JStr) : JStr :=
  let trimmed := jsTrim octet
  if trimmed = [] then trimmed
  else
    match parseInt10 trimmed with
    | none => trimmed
    | some n => intToChars n

/-- normalizeIpAddress: strip leading zeros from each octet; return the input
unchanged when it is empty or does not have exactly 4 dot-separated parts. -/
def normalizeIpAddress (ip : JStr) : JStr :=
  if ip = [] then ip
  else
    let parts := splitDot ip
    if parts.length ≠ 4 then ip
    else joinDot (parts.map normOctet)

/-- The per-octet loop of validateIpAddress, reporting the first failing
octet with its 1-based index i. -/
def checkOctets : List JStr → Nat → Option ValidationError
  | [], _ => none
  | p :: rest, i =>
    let octet := jsTrim p
    if octet = [] then some (.emptyOctet i)
    else
      match parseInt10 octet with
      | none => some (.outOfRange i)
      | some n => if n < 0 ∨ 255 < n then some (.outOfRange i) else checkOctets rest (i + 1)

/-- validateIpAddress: normalize, require 4 octets, each octet a number in
[0, 255]; on success returns the normalized address. -/
def validateIpAddress (ip : JStr) : Except ValidationError JStr :=
  if ip = [] then .error .required
  else
    let normalizedIp := normalizeIpAddress ip
    let parts := splitDot normalizedIp
    if parts.length ≠ 4 then .error .missingOctets
    else
      match checkOctets parts 1 with
      | some e => .error e
      | none => .ok normalizedIp

/-- Binary rendering of one octet string: parseInt, toString(2), pad to 8
characters (parse failure renders NaN, as in the source). -/
def binOctetChars (p : JStr) : JStr :=
  padStart 8 '0'
    (match parseInt10 p with
     | none => ['N', 'a', 'N']
     | some v => intToBinChars v)

/-- ipToBinary: per-octet 8-character binary groups joined with dots. -/
def ipToBinary (ip : JStr) : JStr :=
  joinDot ((splitDot ip).map binOctetChars)

/-- The scan of validateSubnetMask over the binary character string: valid
unless a one bit follows some zero bit. -/
def maskScan : JStr → Bool → Bool
  | [], _ => true
  | c :: rest, foundZero =>
    if c = '0' then maskScan rest true
    else if foundZero ∧ c = '1' then false
    else maskScan rest foundZero

/-- The 32-character binary string of a mask built by validateSubnetMask:
per-octet binary renderings joined without separator. -/
def maskBinChars (mask : JStr) : JStr :=
  ((splitDot mask).map binOctetChars).flatten

/-- validateSubnetMask: address validation first, then the contiguous
ones-then-zeros check on the 32-bit binary form. -/
def validateSubnetMask (mask : JStr) : Except ValidationError Unit :=
  match validateIpAddress mask with
  | .error e => .error e
  | .ok _ =>
      if maskScan (maskBinChars mask) false then .ok () else .error .nonContiguousMask

/-- One shifted term of ipToInt: a JavaScript left shift of a parsed octet
(NaN becomes 0 under ToInt32). -/
def shlTerm (o : Option Int) (sh : Nat) : Int :=
  match o with
  | none => 0
  | some n => toInt32 (toInt32 n * (2 ^ sh : Nat))

/-- ipToInt: (p0 shl 24) + (p1 shl 16) + (p2 shl 8) + p3 on the parsed octets;
the last octet is added unshifted, so an unparseable last octet makes the
whole result NaN (none). -/
def ipToInt (ip : JStr) : Option Int :=
  let ps := (splitDot ip).map parseInt10
  match ps.getD 3 none with
  | none => none
  | some d => some (shlTerm (ps.getD 0 none) 24 + shlTerm (ps.getD 1 none) 16 +
      shlTerm (ps.getD 2 none) 8 + d)

/-- The value of a possibly-NaN JavaScript number under ToInt32 (NaN is 0). -/
def optVal (o : Option Int) : Int := o.getD 0

/-- isIpInNetwork: (ip and mask) equals (network and mask) on the 32-bit
integer forms. -/
def isIpInNetwork (ip networkAddress subnetMask : JStr) : Bool :=
  let ipInt := ipToInt ip
  let networkInt := ipToInt networkAddress
  let maskInt := ipToInt subnetMask
  jsAnd (optVal ipInt) (optVal maskInt) = jsAnd (optVal networkInt) (optVal maskInt)

/-- intToIp: the four octets of the ToUint32 value, rendered in decimal and
joined with dots. -/
def intToIp (ipInt : Int) : JStr :=
  let u := toUint32 ipInt
  joinDot [natToChars (u / 16777216 % 256), natToChars (u / 65536 % 256),
    natToChars (u / 256 % 256), natToChars (u % 256)]

/-- The numeric quantities computed by explainNetworkMismatch, mirroring its
local declarations. -/
structure MismatchFields where
  ipNetworkId : Int
  expectedNetworkId : Int
  cidr : Nat
  hostBits : Nat
  broadcastInt : Int
  broadcastAddress : JStr
  firstHost : JStr
  lastHost : JStr
deriving DecidableEq, Repr

/-- The computed fields of explainNetworkMismatch. -/
def mismatchFields (ip networkAddress subnetMask : JStr) : MismatchFields :=
  let ipInt := ipToInt ip
  let networkInt := ipToInt networkAddress
  let maskInt := ipToInt subnetMask
  let ipNetworkId := jsAnd (optVal ipInt) (optVal maskInt)
  let expectedNetworkId := jsAnd (optVal networkInt) (optVal maskInt)
  let cidr := (ipToBinary subnetMask).count '1'
  let hostBits := toUint32 (jsNot (optVal maskInt))
  let broadcastInt := jsOr expectedNetworkId (hostBits : Int)
  { ipNetworkId := ipNetworkId
    expectedNetworkId := expectedNetworkId
    cidr := cidr
    hostBits := hostBits
    broadcastInt := broadcastInt
    broadcastAddress := intToIp broadcastInt
    firstHost := intToIp (expectedNetworkId + 1)
    lastHost := intToIp (broadcastInt - 1) }

/-- explainNetworkMismatch: the full narrative string assembled from the
computed fields. -/
def explainNetworkMismatch (ip networkAddress subnetMask : JStr) : JStr :=
  let f := mismatchFields ip networkAddress subnetMask
  let ipBinary := ipToBinary ip
  let networkBinary := ipToBinary networkAddress
  let maskBinary := ipToBinary subnetMask
  let ipNetworkIdBinary := ipToBinary (intToIp f.ipNetworkId)
  let expectedNetworkIdBinary := ipToBinary (intToIp f.expectedNetworkId)
  let part1 :=
    strChars "Your IP address " ++ ip ++ strChars " does not belong to the network " ++
    networkAddress ++ strChars "/" ++ natToChars f.cidr ++ strChars ".\n\n" ++
    strChars "Here's why:\n\n" ++
    strChars "1. Network ID Calculation:\n" ++
    strChars "   Network Address: " ++ networkAddress ++ strChars " (" ++ networkBinary ++
      strChars ")\n" ++
    strChars "   Subnet Mask:     " ++ subnetMask ++ strChars " (" ++ maskBinary ++
      strChars ")\n" ++
    strChars "   Network ID:      " ++ intToIp f.expectedNetworkId ++ strChars " (" ++
      expectedNetworkIdBinary ++ strChars ")\n\n" ++
    strChars "2. Your IP's Network ID:\n" ++
    strChars "   Your IP:         " ++ ip ++ strChars " (" ++ ipBinary ++ strChars ")\n" ++
    strChars "   Subnet Mask:     " ++ subnetMask ++ strChars " (" ++ maskBinary ++
      strChars ")\n" ++
    strChars "   Calculated ID:   " ++ intToIp f.ipNetworkId ++ strChars " (" ++
      ipNetworkIdBinary ++ strChars ")\n\n"
  let part2 :=
    if f.ipNetworkId ≠ f.expectedNetworkId then
      strChars "3. The Problem:\n" ++
      strChars "   Your IP's network ID (" ++ intToIp f.ipNetworkId ++
        strChars ") does not match the required network ID (" ++
        intToIp f.expectedNetworkId ++ strChars ").\n" ++
      strChars "   This means your IP is in a different network.\n\n"
    else []
  let part3 :=
    strChars "4. Valid IP Range for this Network:\n" ++
    strChars "   Network Address: " ++ networkAddress ++ strChars " (reserved)\n" ++
    strChars "   First Host:      " ++ f.firstHost ++ strChars "\n" ++
    strChars "   Last Host:       " ++ f.lastHost ++ strChars "\n" ++
    strChars "   Broadcast:       " ++ f.broadcastAddress ++ strChars " (reserved)\n\n" ++
    strChars "   Valid host IPs: " ++ f.firstHost ++ strChars " to " ++ f.lastHost
  part1 ++ part2 ++ part3

/-- The fixed pool of common subnet masks of generateRandomSubnetMask. -/
def commonMasks : List JStr :=
  [strChars "255.255.255.0", strChars "255.255.0.0", strChars "255.0.0.0",
   strChars "255.255.255.128", strChars "255.255.255.192", strChars "255.255.255.224",
   strChars "255.255.254.0", strChars "255.255.252.0"]

/-- generateRandomSubnetMask with the random draw r = num / den made explicit:
commonMasks[floor(r * 8)]. -/
def generateRandomSubnetMask (r : Nat × Nat) : JStr :=
  commonMasks.getD (r.1 * 8 / r.2) []

/-- A random octet: floor(r * 256) for a random draw r = num / den. -/
def randOctet (r : Nat × Nat) : Nat := r.1 * 256 / r.2

/-- generateIpInNetwork with the random draw r = num / den made explicit:
network id or-ed with a random host offset floor(r * (hostBits - 1)) + 1. -/
def generateIpInNetwork (r : Nat × Nat) (networkAddress subnetMask : JStr) : JStr :=
  let networkInt := ipToInt networkAddress
  let maskInt := ipToInt subnetMask
  let netId := jsAnd (optVal networkInt) (optVal maskInt)
  let hostBits := toUint32 (jsNot (optVal maskInt))
  let randomHost := jsFloorMul r.1 r.2 ((hostBits : Int) - 1) + 1
  let ipInt := jsOr netId randomHost
  intToIp ipInt

/-! ## The quiz session state machine (App.svelte) -/

/-- The response object built by generateResponse: the submitted address and
mask with binary forms, the current network, the verdict, the counters at
response time, and the message. -/
structure Response where
  providedIpDecimal : JStr
  providedIpBinary : JStr
  providedMaskDecimal : JStr
  providedMaskBinary : JStr
  networkDecimal : JStr
  networkBinary : JStr
  maskDecimal : JStr
  maskBinary : JStr
  isCorrect : Bool
  currentScore : Nat
  totalQuestionsAttempted : Nat
  message : JStr
deriving DecidableEq, Repr

/-- A submission record: the response plus the 1-based attempt number. -/
structure SubmissionRec extends Response where
  attemptNumber : Nat
deriving DecidableEq, Repr

/-- The mutable component state: network and mask, input buffer, counters,
completion flag, history, current response, error message, continue flag. -/
structure GameState where
  networkAddress : JStr
  subnetMask : JStr
  userInput : JStr
  score : Nat
  correctAnswers : Nat
  totalAttempts : Nat
  gameCompleted : Bool
  submissions : List SubmissionRec
  currentResponse : Option Response
  errorMessage : JStr
  waitingForContinue : Bool
deriving DecidableEq, Repr

/-- JavaScript a or-else b on strings: b when a is null or empty (falsy). -/
def jsOrStr (a : Option JStr) (b : JStr) : JStr :=
  match a with
  | none => b
  | some x => if x = [] then b else x

/-- generateResponse(isCorrect, message, userIp, userSubnet) against the
current state. -/
def generateResponse (st : GameState) (isCorrect : Bool) (message : JStr)
    (userIp userSubnet : Option JStr) : Response :=
  let ipToUse := jsOrStr userIp st.userInput
  { providedIpDecimal := ipToUse
    providedIpBinary := if ipToUse = [] then [] else ipToBinary ipToUse
    providedMaskDecimal := jsOrStr userSubnet st.subnetMask
    providedMaskBinary := ipToBinary (jsOrStr userSubnet st.subnetMask)
    networkDecimal := st.networkAddress
    networkBinary := ipToBinary st.networkAddress
    maskDecimal := st.subnetMask
    maskBinary := ipToBinary st.subnetMask
    isCorrect := isCorrect
    currentScore := st.score
    totalQuestionsAttempted := st.totalAttempts
    message := message }

/-- A random draw for initGame: one draw for the mask pool and three for the
first three network octets, each a numerator / denominator pair. -/
structure Rand4 where
  m : Nat × Nat
  o1 : Nat × Nat
  o2 : Nat × Nat
  o3 : Nat × Nat

/-- initGame: fresh random mask, fresh random network address with last octet
0, cleared input, error, response and continue flag; counters are untouched. -/
def initGame (r : Rand4) (st : GameState) : GameState :=
  { st with
    subnetMask := generateRandomSubnetMask r.m
    networkAddress := joinDot [natToChars (randOctet r.o1), natToChars (randOctet r.o2),
      natToChars (randOctet r.o3), ['0']]
    userInput := []
    errorMessage := []
    currentResponse := none
    waitingForContinue := false }

/-- The initial component state: empty strings, zero counters, no history. -/
def blankState : GameState :=
  { networkAddress := []
    subnetMask := []
    userInput := []
    score := 0
    correctAnswers := 0
    totalAttempts := 0
    gameCompleted := false
    submissions := []
    currentResponse := none
    errorMessage := []
    waitingForContinue := false }

/-- A fresh session: the initial state after the mount-time initGame call. -/
def freshSession (r : Rand4) : GameState := initGame r blankState

/-- handleSubmit: count the attempt, validate, then either record the
validation failure, or judge membership and record a correct or incorrect
submission (clearing the input only when incorrect). -/
def handleSubmit (st0 : GameState) : GameState :=
  let st := { st0 with errorMessage := [], totalAttempts := st0.totalAttempts + 1 }
  match validateIpAddress st.userInput with
  | .error e =>
      let resp := generateResponse st false
        (strChars "Validation error: " ++ errMessage e) none none
      { st with
        errorMessage := errMessage e
        currentResponse := some resp
        submissions := st.submissions ++ [{ resp with attemptNumber := st.totalAttempts }] }
  | .ok normalized =>
      let normalizedIp := jsOrStr (some normalized) st.userInput
      let correct := isIpInNetwork normalizedIp st.networkAddress st.subnetMask
      if correct then
        let st1 := { st with score := st.score + 1, correctAnswers := st.correctAnswers + 1 }
        let resp0 := generateResponse st1 true
          (strChars "Correct! The IP address " ++ normalizedIp ++
           strChars " belongs to the network " ++ st1.networkAddress ++ strChars "/" ++
           st1.subnetMask) (some normalizedIp) none
        let completing := 5 ≤ st1.correctAnswers
        let resp := if completing then
            { resp0 with message := resp0.message ++ strChars " Game completed!" }
          else resp0
        { st1 with
          gameCompleted := if completing then true else st1.gameCompleted
          waitingForContinue := if completing then st1.waitingForContinue else true
          currentResponse := some resp
          submissions := st1.submissions ++ [{ resp with attemptNumber := st1.totalAttempts }] }
      else
        let explanation := explainNetworkMismatch normalizedIp st.networkAddress st.subnetMask
        let resp := generateResponse st false explanation (some normalizedIp) none
        { st with
          currentResponse := some resp
          submissions := st.submissions ++ [{ resp with attemptNumber := st.totalAttempts }]
          userInput := [] }

/-- The submit operation as wired to the user interface: typing the input and
pressing Enter, which is ignored once the game is completed. -/
def submitInput (u : JStr) (st : GameState) : GameState :=
  if st.gameCompleted then st else handleSubmit { st with userInput := u }

/-- continueToNextQuestion: regenerate via initGame unless five correct
answers have been reached. -/
def continueToNextQuestion (r : Rand4) (st : GameState) : GameState :=
  if st.correctAnswers < 5 then initGame r st else st

/-- handleReset: zero all counters and flags, clear the history, then
regenerate via initGame. -/
def handleReset (r : Rand4) (st : GameState) : GameState :=
  initGame r
    { st with
      score := 0
      correctAnswers := 0
      totalAttempts := 0
      gameCompleted := false
      submissions := []
      currentResponse := none
      errorMessage := []
      waitingForContinue := false }

/-- Whether a raw input validates and is judged in the current network, the
condition for handleSubmit to take its correct branch. -/
def correctSubmission (u : JStr) (st : GameState) : Bool :=
  match validateIpAddress u with
  | .error _ => false
  | .ok n => isIpInNetwork (jsOrStr (some n) u) st.networkAddress st.subnetMask

/-! ## Character and trimming lemmas -/

theorem ws_not_digit {c : Char} (h : c.isWhitespace = true) : c.isDigit = false := by
  have h4 : ((c = ' ' ∨ c = '\t') ∨ c = '\r') ∨ c = '\n' := by
    simpa only [Char.isWhitespace, Bool.or_eq_true, decide_eq_true_eq] using h
  obtain ((h | h) | h) | h := h4 <;> subst h <;> decide

theorem digit_not_ws {c : Char} (h : c.isDigit = true) : c.isWhitespace = false := by
  cases hw : c.isWhitespace with
  | false => rfl
  | true => rw [ws_not_digit hw] at h; exact absurd h (by simp)

theorem trimL_eq_nil_iff {cs : JStr} : trimL cs = [] ↔ ∀ c ∈ cs, c.isWhitespace = true := by
  simp [trimL, List.dropWhile_eq_nil_iff]

theorem trimL_head_not_ws {cs rest : JStr} {c : Char} (h : trimL cs = c :: rest) :
    c.isWhitespace = false := by
  have hne : cs.dropWhile Char.isWhitespace ≠ [] := by
    intro hnil; rw [trimL, hnil] at h; cases h
  have hh := List.head_dropWhile_not Char.isWhitespace cs hne
  have h9 : (cs.dropWhile Char.isWhitespace).head? = some c := by
    rw [trimL] at h; rw [h]; rfl
  rw [List.head?_eq_head hne] at h9
  rwa [Option.some.inj h9] at hh

theorem trimL_of_not_ws {cs : JStr} {c : Char} (h : c.isWhitespace = false) :
    trimL (c :: cs) = c :: cs := by
  simp [trimL, List.dropWhile_cons, h]

theorem trimL_all_not_ws {cs : JStr} (h : ∀ c ∈ cs, c.isWhitespace = false) :
    trimL cs = cs := by
  cases cs with
  | nil => rfl
  | cons c rest => exact trimL_of_not_ws (h c (by simp))

/-- The two-sided trim decomposes the left trim as itself plus an all-blank
suffix. -/
theorem jsTrim_decomp (cs : JStr) :
    ∃ t : JStr, trimL cs = jsTrim cs ++ t ∧ ∀ c ∈ t, c.isWhitespace = true := by
  refine ⟨(((trimL cs).reverse).takeWhile Char.isWhitespace).reverse, ?_, ?_⟩
  · have h := List.takeWhile_append_dropWhile Char.isWhitespace (trimL cs).reverse
    have h2 := congrArg List.reverse h
    rw [List.reverse_append, List.reverse_reverse] at h2
    exact h2.symm
  · intro c hc
    rw [List.mem_reverse] at hc
    exact List.mem_takeWhile_imp hc

theorem jsTrim_head_not_ws {cs rest : JStr} {c : Char} (h : jsTrim cs = c :: rest) :
    c.isWhitespace = false := by
  obtain ⟨t, ht, _⟩ := jsTrim_decomp cs
  rw [h] at ht
  exact trimL_head_not_ws ht

theorem jsTrim_nil : jsTrim ([] : JStr) = [] := rfl

theorem jsTrim_eq_nil_of_trimL {cs : JStr} (h : trimL cs = []) : jsTrim cs = [] := by
  obtain ⟨t, ht, _⟩ := jsTrim_decomp cs
  rw [h] at ht
  exact (List.append_eq_nil.mp ht.symm).1

theorem trimL_eq_nil_of_jsTrim {cs : JStr} (h : jsTrim cs = []) : trimL cs = [] := by
  obtain ⟨t, ht, hws⟩ := jsTrim_decomp cs
  rw [h, List.nil_append] at ht
  cases hcs : trimL cs with
  | nil => rfl
  | cons c rest =>
    have hn := trimL_head_not_ws hcs
    have : c ∈ t := by rw [← ht, hcs]; simp
    rw [hws c this] at hn
    exact absurd hn (by simp)

theorem parseDigits_append_blank {cs t : JStr} (h : ∀ c ∈ t, c.isWhitespace = true) :
    parseDigits (cs ++ t) = parseDigits cs := by
  have htw : t.takeWhile Char.isDigit = [] := by
    cases hts : t.takeWhile Char.isDigit with
    | nil => rfl
    | cons c r =>
      have hc : c ∈ t.takeWhile Char.isDigit := by rw [hts]; simp
      have hd := List.mem_takeWhile_imp hc
      have hm : c ∈ t := List.takeWhile_subset _ hc
      rw [ws_not_digit (h c hm)] at hd
      exact absurd hd (by simp)
  have : (cs ++ t).takeWhile Char.isDigit = cs.takeWhile Char.isDigit := by
    rw [List.takeWhile_append]
    split
    · next hl =>
      have hpre := List.takeWhile_prefix (l := cs) (p := Char.isDigit)
      have : cs.takeWhile Char.isDigit = cs := List.IsPrefix.eq_of_length hpre hl
      rw [htw, this, List.append_nil]
    · rfl
  simp only [parseDigits, this]

theorem parseSigned_append_blank {sign : Bool} {cs t : JStr}
    (h : ∀ c ∈ t, c.isWhitespace = true) :
    parseSigned sign (cs ++ t) = parseSigned sign cs := by
  simp only [parseSigned, parseDigits_append_blank h]

theorem parseInt10_jsTrim (cs : JStr) : parseInt10 (jsTrim cs) = parseInt10 cs := by
  obtain ⟨t, ht, hws⟩ := jsTrim_decomp cs
  cases hj : jsTrim cs with
  | nil =>
    have h0 : trimL cs = [] := trimL_eq_nil_of_jsTrim hj
    have h1 : trimL ([] : JStr) = [] := rfl
    simp [parseInt10, h0, h1]
  | cons c rest =>
    have hc : c.isWhitespace = false := jsTrim_head_not_ws hj
    have h1 : trimL (c :: rest) = c :: rest := trimL_of_not_ws hc
    rw [hj] at ht
    simp only [parseInt10, h1, ht, List.cons_append, List.head?_cons, List.tail_cons]
    rw [← List.cons_append]
    simp only [parseSigned_append_blank (t := t) hws]

/-! ## Decimal digit strings: rendering and parsing round trip -/

theorem digitsRevF_lt_base {b : Nat} (hb : 0 < b) :
    ∀ fuel n d, d ∈ digitsRevF b fuel n → d < b := by
  intro fuel
  induction fuel with
  | zero => intro n d hd; simp [digitsRevF] at hd
  | succ f ih =>
    intro n d hd
    simp only [digitsRevF] at hd
    split at hd
    · simp at hd
    · rcases List.mem_cons.mp hd with h | h
      · subst h; exact Nat.mod_lt _ hb
      · exact ih _ _ h

theorem foldl_digitsRevF :
    ∀ fuel n, n ≤ fuel →
      ((digitsRevF 10 fuel n).reverse).foldl (fun a d => a * 10 + d) 0 = n := by
  intro fuel
  induction fuel with
  | zero => intro n hn; interval_cases n; rfl
  | succ f ih =>
    intro n hn
    by_cases h0 : n = 0
    · subst h0; rfl
    · have hdiv : n / 10 ≤ f := by
        have : n / 10 < n := Nat.div_lt_self (Nat.pos_of_ne_zero h0) (by omega)
        omega
      simp only [digitsRevF, h0, if_false, List.reverse_cons, List.foldl_append,
        ih (n / 10) hdiv, List.foldl_cons, List.foldl_nil]
      omega

theorem digitChar_isDigit {d : Nat} (hd : d < 10) : (Nat.digitChar d).isDigit = true := by
  interval_cases d <;> decide

theorem digitChar_toNat {d : Nat} (hd : d < 10) : (Nat.digitChar d).toNat - 48 = d := by
  interval_cases d <;> decide

theorem natToChars_all_digit (n : Nat) : ∀ c ∈ natToChars n, c.isDigit = true := by
  intro c hc
  by_cases h0 : n = 0
  · subst h0; simp only [natToChars, if_pos rfl] at hc; simp at hc; subst hc; decide
  · simp only [natToChars, h0, if_false, List.mem_map, List.mem_reverse] at hc
    obtain ⟨d, hd, rfl⟩ := hc
    exact digitChar_isDigit (digitsRevF_lt_base (by omega) n n d hd)

theorem digitsRevF_ne_nil {n : Nat} (h0 : n ≠ 0) : digitsRevF 10 n n ≠ [] := by
  cases n with
  | zero => exact absurd rfl h0
  | succ m => simp [digitsRevF]

theorem natToChars_ne_nil (n : Nat) : natToChars n ≠ [] := by
  by_cases h0 : n = 0
  · subst h0; simp [natToChars]
  · simp only [natToChars, h0, if_false]
    simpa using digitsRevF_ne_nil h0

theorem parseDigits_natToChars (n : Nat) : parseDigits (natToChars n) = some n := by
  have hall : (natToChars n).takeWhile Char.isDigit = natToChars n :=
    List.takeWhile_eq_self_iff.mpr (natToChars_all_digit n)
  simp only [parseDigits, hall, natToChars_ne_nil n, if_false]
  congr 1
  by_cases h0 : n = 0
  · subst h0; rfl
  · simp only [natToChars, h0, if_false]
    rw [List.foldl_map]
    refine Eq.trans (List.foldl_ext _ _ _ ?_) (foldl_digitsRevF n n le_rfl)
    intro a d hd
    rw [List.mem_reverse] at hd
    simp only [digitChar_toNat (digitsRevF_lt_base (by omega) n n d hd)]

theorem natToChars_not_ws (n : Nat) : ∀ c ∈ natToChars n, c.isWhitespace = false :=
  fun c hc => digit_not_ws (natToChars_all_digit n c hc)

theorem trimL_natToChars (n : Nat) : trimL (natToChars n) = natToChars n :=
  trimL_all_not_ws (natToChars_not_ws n)

theorem parseSigned_natToChars_neg (m : Nat) :
    parseSigned true (natToChars m) = some (-(m : Int)) := by
  simp [parseSigned, parseDigits_natToChars]

theorem parseSigned_natToChars_pos (m : Nat) :
    parseSigned false (natToChars m) = some ((m : Int)) := by
  simp [parseSigned, parseDigits_natToChars]

theorem parseInt10_natToChars (n : Nat) : parseInt10 (natToChars n) = some (n : Int) := by
  have hne := natToChars_ne_nil n
  obtain ⟨c, rest, hcr⟩ : ∃ c rest, natToChars n = c :: rest := by
    cases h : natToChars n with
    | nil => exact absurd h hne
    | cons c r => exact ⟨c, r, rfl⟩
  have hcd : c.isDigit = true := natToChars_all_digit n c (by rw [hcr]; simp)
  have hm1 : c ≠ '-' := by intro hcc; rw [hcc] at hcd; exact absurd hcd (by decide)
  have hm2 : c ≠ '+' := by intro hcc; rw [hcc] at hcd; exact absurd hcd (by decide)
  have hc1 : ¬((natToChars n).head? = some '-') := by rw [hcr]; simp [hm1]
  have hc2 : ¬((natToChars n).head? = some '+') := by rw [hcr]; simp [hm2]
  simp only [parseInt10, trimL_natToChars, if_neg hc1, if_neg hc2]
  exact parseSigned_natToChars_pos n

theorem intToChars_ne_nil (v : Int) : intToChars v ≠ [] := by
  by_cases h : v < 0
  · simp [intToChars, h]
  · simp only [intToChars, if_neg h]; exact natToChars_ne_nil _

theorem intToChars_not_ws (v : Int) : ∀ c ∈ intToChars v, c.isWhitespace = false := by
  intro c hc
  by_cases h : v < 0
  · simp only [intToChars, if_pos h] at hc
    rcases List.mem_cons.mp hc with h2 | h2
    · subst h2; decide
    · exact natToChars_not_ws _ c h2
  · simp only [intToChars, if_neg h] at hc
    exact natToChars_not_ws _ c hc

theorem parseInt10_intToChars (v : Int) : parseInt10 (intToChars v) = some v := by
  by_cases h : v < 0
  · simp only [intToChars, if_pos h]
    have h1 : trimL ('-' :: natToChars v.natAbs) = '-' :: natToChars v.natAbs :=
      trimL_of_not_ws (by decide)
    simp only [parseInt10, h1, List.head?_cons, List.tail_cons]
    simp only [if_true, parseSigned_natToChars_neg]
    congr 1
    omega
  · simp only [intToChars, if_neg h]
    rw [parseInt10_natToChars]
    congr 1
    omega

/-! ## Lemmas about splitting and joining on dots -/

theorem splitDot_ne_nil (cs : JStr) : splitDot cs ≠ [] := by
  induction cs with
  | nil => simp [splitDot]
  | cons c rest ih =>
    simp only [splitDot]
    split
    · simp
    · split
      · simp
      · simp

theorem splitDot_no_dot (cs : JStr) : ∀ p ∈ splitDot cs, '.' ∉ p := by
  induction cs with
  | nil =>
    intro p hp
    simp only [splitDot, List.mem_singleton] at hp
    subst hp; simp
  | cons c rest ih =>
    intro p hp
    simp only [splitDot] at hp
    by_cases hc : c = '.'
    · rw [if_pos hc] at hp
      rcases List.mem_cons.mp hp with h | h
      · subst h; simp
      · exact ih p h
    · rw [if_neg hc] at hp
      cases hsd : splitDot rest with
      | nil => exact absurd hsd (splitDot_ne_nil rest)
      | cons q qs =>
        rw [hsd] at hp
        rcases List.mem_cons.mp hp with h | h
        · subst h
          intro hmem
          rcases List.mem_cons.mp hmem with h2 | h2
          · exact hc h2.symm
          · exact ih q (by rw [hsd]; simp) h2
        · exact ih p (by rw [hsd]; simp [h])

theorem splitDot_single {p : JStr} (h : '.' ∉ p) : splitDot p = [p] := by
  induction p with
  | nil => rfl
  | cons c rest ih =>
    have hc : c ≠ '.' := fun hcc => h (by rw [hcc]; simp)
    have hrest : '.' ∉ rest := fun hm => h (List.mem_cons_of_mem _ hm)
    simp only [splitDot, if_neg hc, ih hrest]

theorem splitDot_append_dot {p cs : JStr} (h : '.' ∉ p) :
    splitDot (p ++ '.' :: cs) = p :: splitDot cs := by
  induction p with
  | nil => simp [splitDot]
  | cons c rest ih =>
    have hc : c ≠ '.' := fun hcc => h (by rw [hcc]; simp)
    have hrest : '.' ∉ rest := fun hm => h (List.mem_cons_of_mem _ hm)
    simp only [List.cons_append, splitDot, if_neg hc, List.append_eq, ih hrest]

theorem splitDot_joinDot :
    ∀ ps : List JStr, ps ≠ [] → (∀ p ∈ ps, '.' ∉ p) → splitDot (joinDot ps) = ps
  | [], h, _ => absurd rfl h
  | [p], _, hd => by simp [joinDot, splitDot_single (hd p (by simp))]
  | p :: q :: ps, _, hd => by
    have h1 : '.' ∉ p := hd p (by simp)
    have : joinDot (p :: q :: ps) = p ++ '.' :: joinDot (q :: ps) := rfl
    rw [this, splitDot_append_dot h1,
      splitDot_joinDot (q :: ps) (by simp) (fun r hr => hd r (by simp [hr]))]

/-! ## The normalization pass seen through validation -/

theorem jsTrim_cons_not_ws {c : Char} {rest : JStr} (hc : c.isWhitespace = false) :
    jsTrim (c :: rest) ≠ [] := by
  intro h
  have h2 := trimL_eq_nil_of_jsTrim h
  rw [trimL_of_not_ws hc] at h2
  cases h2

theorem parseInt10_normOctet (p : JStr) : parseInt10 (normOctet p) = parseInt10 p := by
  simp only [normOctet]
  split
  · exact parseInt10_jsTrim p
  · split
    · exact parseInt10_jsTrim p
    · next n hn => rw [parseInt10_intToChars, ← parseInt10_jsTrim p, hn]

theorem jsTrim_normOctet_nil_iff (p : JStr) :
    (jsTrim (normOctet p) = []) ↔ (jsTrim p = []) := by
  simp only [normOctet]
  split
  · next h => rw [h]; simp [jsTrim_nil, h]
  · next h =>
    split
    · constructor
      · intro h2
        obtain ⟨c, rest, hcr⟩ : ∃ c rest, jsTrim p = c :: rest := by
          cases hx : jsTrim p with
          | nil => exact absurd hx h
          | cons c r => exact ⟨c, r, rfl⟩
        rw [hcr] at h2
        exact absurd h2 (jsTrim_cons_not_ws (jsTrim_head_not_ws hcr))
      · intro h2; exact absurd h2 h
    · next n hn =>
      constructor
      · intro h2
        obtain ⟨c, rest, hcr⟩ : ∃ c rest, intToChars n = c :: rest := by
          cases hx : intToChars n with
          | nil => exact absurd hx (intToChars_ne_nil n)
          | cons c r => exact ⟨c, r, rfl⟩
        rw [hcr] at h2
        exact absurd h2 (jsTrim_cons_not_ws (by
          exact intToChars_not_ws n c (by rw [hcr]; simp)))
      · intro h2; exact absurd h2 h

theorem normOctet_no_dot {p : JStr} (h : '.' ∉ p) : '.' ∉ normOctet p := by
  have htrim : '.' ∉ jsTrim p := by
    intro hm
    obtain ⟨t, ht, _⟩ := jsTrim_decomp p
    have h1 : ('.' : Char) ∈ trimL p := by rw [ht]; exact List.mem_append_left _ hm
    exact h (List.dropWhile_sublist (p := Char.isWhitespace) (l := p) |>.subset h1)
  simp only [normOctet]
  split
  · exact htrim
  · split
    · exact htrim
    · next n hn =>
      intro hm
      by_cases hneg : n < 0
      · simp only [intToChars, if_pos hneg] at hm
        rcases List.mem_cons.mp hm with h2 | h2
        · cases h2
        · have := natToChars_all_digit n.natAbs '.' h2
          exact absurd this (by decide)
      · simp only [intToChars, if_neg hneg] at hm
        have := natToChars_all_digit n.toNat '.' hm
        exact absurd this (by decide)

/-- Whether an octet string passes the per-octet test of validateIpAddress:
it parses and its value lies in [0, 255]. -/
def octetGood (p : JStr) : Bool :=
  match parseInt10 p with
  | none => false
  | some v => decide (0 ≤ v ∧ v ≤ 255)

theorem parseInt10_nil : parseInt10 ([] : JStr) = none := rfl

theorem parseInt10_of_jsTrim_nil {p : JStr} (h : jsTrim p = []) : parseInt10 p = none := by
  rw [← parseInt10_jsTrim, h, parseInt10_nil]

theorem checkOctets_map_norm (ps : List JStr) :
    ∀ i, checkOctets (ps.map normOctet) i = checkOctets ps i := by
  induction ps with
  | nil => intro i; rfl
  | cons p rest ih =>
    intro i
    simp only [List.map_cons, checkOctets]
    have hp : parseInt10 (jsTrim (normOctet p)) = parseInt10 (jsTrim p) := by
      rw [parseInt10_jsTrim, parseInt10_normOctet, parseInt10_jsTrim]
    by_cases h : jsTrim p = []
    · rw [if_pos ((jsTrim_normOctet_nil_iff p).mpr h), if_pos h]
    · rw [if_neg (fun hh => h ((jsTrim_normOctet_nil_iff p).mp hh)), if_neg h, hp]
      cases parseInt10 (jsTrim p) with
      | none => rfl
      | some v =>
        simp only []
        by_cases hv : v < 0 ∨ 255 < v
        · rw [if_pos hv, if_pos hv]
        · rw [if_neg hv, if_neg hv, ih]

theorem checkOctets_none_iff (ps : List JStr) :
    ∀ i, checkOctets ps i = none ↔ ∀ p ∈ ps, octetGood p = true := by
  induction ps with
  | nil => intro i; simp [checkOctets]
  | cons p rest ih =>
    intro i
    simp only [checkOctets]
    by_cases h : jsTrim p = []
    · rw [if_pos h]
      constructor
      · intro hh; cases hh
      · intro hh
        have := hh p (by simp)
        rw [octetGood, parseInt10_of_jsTrim_nil h] at this
        cases this
    · rw [if_neg h]
      cases hv : parseInt10 (jsTrim p) with
      | none =>
        constructor
        · intro hh; cases hh
        · intro hh
          have := hh p (by simp)
          rw [octetGood, ← parseInt10_jsTrim p, hv] at this
          cases this
      | some v =>
        simp only []
        by_cases hr : v < 0 ∨ 255 < v
        · rw [if_pos hr]
          constructor
          · intro hh; cases hh
          · intro hh
            have := hh p (by simp)
            rw [octetGood, ← parseInt10_jsTrim p, hv] at this
            simp only [decide_eq_true_eq] at this
            omega
        · rw [if_neg hr, ih]
          constructor
          · intro hh q hq
            rcases List.mem_cons.mp hq with h2 | h2
            · subst h2
              rw [octetGood, ← parseInt10_jsTrim q, hv]
              simp only [decide_eq_true_eq]
              omega
            · exact hh q h2
          · intro hh q hq
            exact hh q (List.mem_cons_of_mem _ hq)

theorem octetGood_false_elim {p : JStr} (h : octetGood p = false) :
    jsTrim p = [] ∨ parseInt10 (jsTrim p) = none ∨
      (∃ v, parseInt10 (jsTrim p) = some v ∧ (v < 0 ∨ 255 < v)) := by
  rw [octetGood] at h
  cases hv : parseInt10 p with
  | none =>
    by_cases ht : jsTrim p = []
    · exact Or.inl ht
    · exact Or.inr (Or.inl (by rw [parseInt10_jsTrim, hv]))
  | some v =>
    rw [hv] at h
    simp only [decide_eq_false_iff_not, not_and, not_le] at h
    refine Or.inr (Or.inr ⟨v, by rw [parseInt10_jsTrim, hv], ?_⟩)
    by_cases h0 : 0 ≤ v
    · exact Or.inr (h h0)
    · exact Or.inl (by omega)

theorem octetGood_true_elim {p : JStr} (h : octetGood p = true) :
    jsTrim p ≠ [] ∧ ∃ v, parseInt10 (jsTrim p) = some v ∧ 0 ≤ v ∧ v ≤ 255 := by
  rw [octetGood] at h
  cases hv : parseInt10 p with
  | none => rw [hv] at h; cases h
  | some v =>
    rw [hv] at h
    simp only [decide_eq_true_eq] at h
    refine ⟨?_, v, by rw [parseInt10_jsTrim, hv], h⟩
    intro ht
    rw [parseInt10_of_jsTrim_nil ht] at hv
    cases hv

theorem checkOctets_first (ps : List JStr) :
    ∀ k i, i < ps.length → (∀ j, j < i → octetGood (ps.getD j []) = true) →
      octetGood (ps.getD i []) = false →
      checkOctets ps k =
        some (if jsTrim (ps.getD i []) = [] then .emptyOctet (k + i) else .outOfRange (k + i)) := by
  induction ps with
  | nil => intro k i hi; simp at hi
  | cons p rest ih =>
    intro k i hi hgood hbad
    cases i with
    | zero =>
      simp only [List.getD_cons_zero] at hbad ⊢
      simp only [checkOctets, Nat.add_zero]
      rcases octetGood_false_elim hbad with h | h | ⟨v, hv, hr⟩
      · rw [if_pos h, if_pos h]
      · by_cases ht : jsTrim p = []
        · rw [if_pos ht, if_pos ht]
        · rw [if_neg ht, h]
          simp only []
          rw [if_neg ht]
      · have hne2 : jsTrim p ≠ [] := by
          intro ht
          rw [ht, parseInt10_nil] at hv
          cases hv
        rw [if_neg hne2, hv]
        simp only []
        rw [if_pos hr, if_neg hne2]
    | succ j =>
      simp only [List.getD_cons_succ] at hbad ⊢
      have hp : octetGood p = true := by
        have := hgood 0 (Nat.succ_pos j)
        simpa using this
      obtain ⟨hne2, v, hv, h0, h255⟩ := octetGood_true_elim hp
      simp only [checkOctets, if_neg hne2, hv]
      rw [if_neg (by omega)]
      have hrec := ih (k + 1) j (by simp only [List.length_cons] at hi; omega)
        (fun j' hj' => by
          have := hgood (j' + 1) (by omega)
          simpa using this) hbad
      rw [hrec]
      congr 1
      have hkj : k + 1 + j = k + (j + 1) := by omega
      rw [hkj]

theorem normalizeIpAddress_of_4 {cs : JStr} (hne : cs ≠ [])
    (h4 : (splitDot cs).length = 4) :
    splitDot (normalizeIpAddress cs) = (splitDot cs).map normOctet := by
  simp only [normalizeIpAddress]
  rw [if_neg hne, if_neg (fun hh => hh h4)]
  apply splitDot_joinDot
  · intro hmap
    have := congrArg List.length hmap
    simp [h4] at this
  · intro q hq
    rw [List.mem_map] at hq
    obtain ⟨p, hp, rfl⟩ := hq
    exact normOctet_no_dot (splitDot_no_dot cs p hp)

/-- validateIpAddress on a nonempty 4-part string reduces to the per-octet
check on the original parts. -/
theorem validateIpAddress_eq {cs : JStr} (hne : cs ≠ [])
    (h4 : (splitDot cs).length = 4) :
    validateIpAddress cs =
      (match checkOctets (splitDot cs) 1 with
       | some e => .error e
       | none => .ok (normalizeIpAddress cs)) := by
  have hlen : ((splitDot cs).map normOctet).length = 4 := by simp [h4]
  simp only [validateIpAddress]
  rw [if_neg hne, normalizeIpAddress_of_4 hne h4, if_neg (fun hh => hh hlen),
    checkOctets_map_norm]

theorem validateIpAddress_missing {cs : JStr} (hne : cs ≠ [])
    (h4 : (splitDot cs).length ≠ 4) :
    validateIpAddress cs = .error .missingOctets := by
  have hnorm : normalizeIpAddress cs = cs := by
    simp only [normalizeIpAddress]
    rw [if_neg hne, if_pos h4]
  simp only [validateIpAddress]
  rw [if_neg hne, hnorm, if_pos h4]

/-! ## 32-bit integer lemmas -/

theorem toUint32_lt (n : Int) : toUint32 n < 4294967296 := by
  simp only [toUint32]
  omega

theorem toUint32_natCast {a : Nat} (h : a < 4294967296) : toUint32 (a : Int) = a := by
  simp only [toUint32]
  omega

theorem toUint32_toInt32 (x : Int) : toUint32 (toInt32 x) = toUint32 x := by
  simp only [toInt32, toUint32]
  split <;> omega

theorem toInt32_eq_iff {x y : Int} : toInt32 x = toInt32 y ↔ toUint32 x = toUint32 y := by
  simp only [toInt32, toUint32]
  split <;> split <;> omega

theorem toInt32_small {v : Int} (h0 : 0 ≤ v) (h1 : v < 2147483648) : toInt32 v = v := by
  simp only [toInt32]
  split <;> omega

theorem andBitsF_lt : ∀ f a b, andBitsF f a b < 2 ^ f := by
  intro f
  induction f with
  | zero => intro a b; simp [andBitsF]
  | succ g ih =>
    intro a b
    have h1 := ih (a / 2) (b / 2)
    have h2 : a % 2 * (b % 2) ≤ 1 :=
      Nat.mul_le_mul (Nat.le_of_lt_succ (Nat.mod_lt a (by omega)))
        (Nat.le_of_lt_succ (Nat.mod_lt b (by omega)))
    simp only [andBitsF]
    have : 2 ^ (g + 1) = 2 * 2 ^ g := by ring
    omega

theorem orBitsF_lt : ∀ f a b, orBitsF f a b < 2 ^ f := by
  intro f
  induction f with
  | zero => intro a b; simp [orBitsF]
  | succ g ih =>
    intro a b
    have h1 := ih (a / 2) (b / 2)
    have h2 : max (a % 2) (b % 2) ≤ 1 := by
      have := Nat.mod_lt a (y := 2) (by omega)
      have := Nat.mod_lt b (y := 2) (by omega)
      omega
    simp only [orBitsF]
    have : 2 ^ (g + 1) = 2 * 2 ^ g := by ring
    omega

theorem and32_lt (a b : Nat) : and32 a b < 4294967296 := andBitsF_lt 32 a b

theorem or32_lt (a b : Nat) : or32 a b < 4294967296 := orBitsF_lt 32 a b

/-- ToUint32 of JavaScript bitwise NOT is the 32-bit complement. -/
theorem toUint32_jsNot (x : Int) : toUint32 (jsNot x) = 4294967295 - toUint32 x := by
  simp only [jsNot, toInt32, toUint32]
  split <;> split <;> omega

/-! ## The integer form of a syntactically valid address -/

/-- The parsed numeric value of an octet string, as a natural number. -/
def octetValN (p : JStr) : Nat := ((parseInt10 p).getD 0).toNat

/-- The 32-bit big-endian packing of the four parsed octets of an address
string (0 when the string does not have 4 parts). -/
def addrNat (cs : JStr) : Nat :=
  match splitDot cs with
  | [p0, p1, p2, p3] =>
      octetValN p0 * 16777216 + octetValN p1 * 65536 + octetValN p2 * 256 + octetValN p3
  | _ => 0

theorem list_len4 {α : Type} {l : List α} (h : l.length = 4) :
    ∃ a b c d, l = [a, b, c, d] := by
  match l with
  | [a, b, c, d] => exact ⟨a, b, c, d, rfl⟩
  | [] | [_] | [_, _] | [_, _, _] => simp at h
  | _ :: _ :: _ :: _ :: _ :: _ => simp at h

/-- Structure of a string accepted by validateIpAddress: it is nonempty, has
exactly four dot-separated parts, and each part parses into [0, 255]. -/
theorem valid_structure {cs : JStr} (h : ∃ t, validateIpAddress cs = .ok t) :
    cs ≠ [] ∧ ∃ p0 p1 p2 p3, splitDot cs = [p0, p1, p2, p3] ∧
      ∀ p ∈ splitDot cs, octetGood p = true := by
  obtain ⟨t, ht⟩ := h
  have hne : cs ≠ [] := by
    intro h0
    rw [validateIpAddress, if_pos h0] at ht
    cases ht
  have h4 : (splitDot cs).length = 4 := by
    by_contra h4
    rw [validateIpAddress_missing hne h4] at ht
    cases ht
  obtain ⟨p0, p1, p2, p3, hps⟩ := list_len4 h4
  refine ⟨hne, p0, p1, p2, p3, hps, ?_⟩
  rw [← checkOctets_none_iff _ 1]
  rw [validateIpAddress_eq hne h4] at ht
  cases hc : checkOctets (splitDot cs) 1 with
  | none => rfl
  | some e => rw [hc] at ht; cases ht

/-- The computation of ipToInt from the four parsed octet values. -/
theorem ipToInt_parts {cs : JStr} {p0 p1 p2 p3 : JStr} {v0 v1 v2 v3 : Int}
    (hps : splitDot cs = [p0, p1, p2, p3])
    (hv0 : parseInt10 p0 = some v0) (hl0 : 0 ≤ v0) (hh0 : v0 ≤ 255)
    (hv1 : parseInt10 p1 = some v1) (hl1 : 0 ≤ v1) (hh1 : v1 ≤ 255)
    (hv2 : parseInt10 p2 = some v2) (hl2 : 0 ≤ v2) (hh2 : v2 ≤ 255)
    (hv3 : parseInt10 p3 = some v3) (hl3 : 0 ≤ v3) (hh3 : v3 ≤ 255) :
    ∃ s : Int, ipToInt cs = some s ∧
      toUint32 s = v0.toNat * 16777216 + v1.toNat * 65536 + v2.toNat * 256 + v3.toNat := by
  refine ⟨shlTerm (some v0) 24 + shlTerm (some v1) 16 + shlTerm (some v2) 8 + v3, ?_, ?_⟩
  · simp only [ipToInt, hps, List.map_cons, hv0, hv1, hv2, hv3]
    rfl
  · simp only [shlTerm]
    rw [toInt32_small hl0 (by omega), toInt32_small hl1 (by omega),
      toInt32_small hl2 (by omega)]
    rw [show ((2 ^ 24 : Nat) : Int) = 16777216 from by norm_num,
      show ((2 ^ 16 : Nat) : Int) = 65536 from by norm_num,
      show ((2 ^ 8 : Nat) : Int) = 256 from by norm_num]
    rw [toInt32_small (by positivity) (by omega) (v := v1 * 65536),
      toInt32_small (by positivity) (by omega) (v := v2 * 256)]
    simp only [toInt32, toUint32]
    split <;> omega

/-- The computed ipToInt of a valid address string: defined, congruent to the
big-endian packing modulo 2 ^ 32. -/
theorem ipToInt_of_valid {cs : JStr} (h : ∃ t, validateIpAddress cs = .ok t) :
    ∃ s : Int, ipToInt cs = some s ∧ toUint32 s = addrNat cs ∧ addrNat cs < 4294967296 := by
  obtain ⟨hne, p0, p1, p2, p3, hps, hgood⟩ := valid_structure h
  have g0 := octetGood_true_elim (hgood p0 (by rw [hps]; simp))
  have g1 := octetGood_true_elim (hgood p1 (by rw [hps]; simp))
  have g2 := octetGood_true_elim (hgood p2 (by rw [hps]; simp))
  have g3 := octetGood_true_elim (hgood p3 (by rw [hps]; simp))
  obtain ⟨-, v0, hv0, hl0, hh0⟩ := g0
  obtain ⟨-, v1, hv1, hl1, hh1⟩ := g1
  obtain ⟨-, v2, hv2, hl2, hh2⟩ := g2
  obtain ⟨-, v3, hv3, hl3, hh3⟩ := g3
  rw [parseInt10_jsTrim] at hv0 hv1 hv2 hv3
  have haddr : addrNat cs =
      v0.toNat * 16777216 + v1.toNat * 65536 + v2.toNat * 256 + v3.toNat := by
    simp only [addrNat, hps, octetValN, hv0, hv1, hv2, hv3, Option.getD_some]
  obtain ⟨s, hs, hu⟩ := ipToInt_parts hps hv0 hl0 hh0 hv1 hl1 hh1 hv2 hl2 hh2 hv3 hl3 hh3
  exact ⟨s, hs, by rw [hu, haddr], by rw [haddr]; omega⟩

/-- Valid-input characterization of isIpInNetwork: the JavaScript signed
computation decides equality of the masked 32-bit packings. -/
theorem isIpInNetwork_iff {a n m : JStr}
    (ha : ∃ t, validateIpAddress a = .ok t)
    (hn : ∃ t, validateIpAddress n = .ok t)
    (hm : ∃ t, validateIpAddress m = .ok t) :
    isIpInNetwork a n m = true ↔
      and32 (addrNat a) (addrNat m) = and32 (addrNat n) (addrNat m) := by
  obtain ⟨sa, hsa, hua, -⟩ := ipToInt_of_valid ha
  obtain ⟨sn, hsn, hun, -⟩ := ipToInt_of_valid hn
  obtain ⟨sm, hsm, hum, -⟩ := ipToInt_of_valid hm
  simp only [isIpInNetwork, hsa, hsn, hsm, optVal, Option.getD_some, jsAnd,
    decide_eq_true_eq]
  rw [toInt32_eq_iff, toUint32_natCast (and32_lt _ _), toUint32_natCast (and32_lt _ _),
    hua, hun, hum]

/-! ## Claim theorems -/

/-- C1: for syntactically valid address, network and mask strings,
isIpInNetwork returns true exactly when the 32-bit AND of the address value
with the mask value equals the 32-bit AND of the network value, as given,
with the mask value. -/
theorem c1_isInNetwork_masked_equality {a n m : JStr}
    (ha : ∃ t, validateIpAddress a = .ok t)
    (hn : ∃ t, validateIpAddress n = .ok t)
    (hm : ∃ t, validateIpAddress m = .ok t) :
    isIpInNetwork a n m = true ↔
      and32 (addrNat a) (addrNat m) = and32 (addrNat n) (addrNat m) :=
  isIpInNetwork_iff ha hn hm

theorem c1_isInNetwork_masked_equality_witness :
    isIpInNetwork (strChars "192.168.1.10") (strChars "192.168.1.0")
      (strChars "255.255.255.0") = true ∧
    isIpInNetwork (strChars "192.168.2.10") (strChars "192.168.1.0")
      (strChars "255.255.255.0") = false :=
  ⟨(c1_isInNetwork_masked_equality ⟨strChars "192.168.1.10", by decide⟩
      ⟨strChars "192.168.1.0", by decide⟩ ⟨strChars "255.255.255.0", by decide⟩).mpr
      (by decide),
   by decide⟩

theorem c3_counterexample :
    (splitDot ([] : JStr)).length ≠ 4 ∧
    validateIpAddress ([] : JStr) = .error .required ∧
    ValidationError.required ≠ ValidationError.missingOctets := by
  refine ⟨by decide, by decide, by decide⟩

/-- C3 (amended): validateIpAddress succeeds exactly when the input splits
into exactly 4 dot-separated parts each of which parses (after trimming, with
parseInt semantics) to an integer in [0, 255]; on success it returns the
normalized address (leading zeros stripped); a nonempty input with a part
count other than 4 fails with the missing-octets error, while the empty
input fails with the dedicated required error; otherwise the first failing
octet is reported with its 1-based index, as empty when its trim is blank and
as out-of-range when it fails to parse or lies outside [0, 255]. -/
theorem c3_parseAndValidate (cs : JStr) :
    (cs = [] → validateIpAddress cs = .error .required) ∧
    (cs ≠ [] → (splitDot cs).length ≠ 4 → validateIpAddress cs = .error .missingOctets) ∧
    ((∃ t, validateIpAddress cs = .ok t) ↔
      ((splitDot cs).length = 4 ∧ ∀ p ∈ splitDot cs, octetGood p = true)) ∧
    (∀ t, validateIpAddress cs = .ok t → t = normalizeIpAddress cs) ∧
    (∀ i, (splitDot cs).length = 4 → i < 4 →
      (∀ j, j < i → octetGood ((splitDot cs).getD j []) = true) →
      octetGood ((splitDot cs).getD i []) = false →
      validateIpAddress cs = .error
        (if jsTrim ((splitDot cs).getD i []) = [] then .emptyOctet (i + 1)
         else .outOfRange (i + 1))) := by
  have hsplit_nil : splitDot ([] : JStr) = [[]] := rfl
  refine ⟨?_, ?_, ?_, ?_, ?_⟩
  · intro h; rw [validateIpAddress, if_pos h]
  · intro hne h4; exact validateIpAddress_missing hne h4
  · constructor
    · intro h
      obtain ⟨hne, p0, p1, p2, p3, hps, hgood⟩ := valid_structure h
      exact ⟨by rw [hps]; rfl, hgood⟩
    · rintro ⟨h4, hgood⟩
      have hne : cs ≠ [] := by
        intro h0
        rw [h0, hsplit_nil] at h4
        cases h4
      rw [validateIpAddress_eq hne h4]
      rw [(checkOctets_none_iff (splitDot cs) 1).mpr hgood]
      exact ⟨normalizeIpAddress cs, rfl⟩
  · intro t ht
    have hne : cs ≠ [] := by
      intro h0
      rw [validateIpAddress, if_pos h0] at ht
      cases ht
    have h4 : (splitDot cs).length = 4 := by
      by_contra h4
      rw [validateIpAddress_missing hne h4] at ht
      cases ht
    rw [validateIpAddress_eq hne h4] at ht
    cases hc : checkOctets (splitDot cs) 1 with
    | none => rw [hc] at ht; cases ht; rfl
    | some e => rw [hc] at ht; cases ht
  · intro i h4 hi hgood hbad
    have hne : cs ≠ [] := by
      intro h0
      rw [h0, hsplit_nil] at h4
      cases h4
    rw [validateIpAddress_eq hne h4]
    have := checkOctets_first (splitDot cs) 1 i (by omega) hgood hbad
    rw [this]
    have hadd : 1 + i = i + 1 := by omega
    rw [hadd]

theorem c3_parseAndValidate_witness :
    (∃ t, validateIpAddress (strChars "001.2.3.4") = .ok t) ∧
    validateIpAddress (strChars "1.2.3") = .error .missingOctets :=
  ⟨(c3_parseAndValidate (strChars "001.2.3.4")).2.2.1.mpr (by decide),
   (c3_parseAndValidate (strChars "1.2.3")).2.1 (by decide) (by decide)⟩

/-! ## Mask bits and the contiguity check -/

/-- The eight bits of an octet value, most significant first. -/
def octetBits8 (v : Nat) : List Bool :=
  [v / 128 % 2 == 1, v / 64 % 2 == 1, v / 32 % 2 == 1, v / 16 % 2 == 1,
   v / 8 % 2 == 1, v / 4 % 2 == 1, v / 2 % 2 == 1, v % 2 == 1]

/-- A bit as the character the source renders it to. -/
def bitChar (b : Bool) : Char := if b then '1' else '0'

/-- The boolean mirror of the subnet-mask scan over the binary string. -/
def boolScan : List Bool → Bool → Bool
  | [], _ => true
  | b :: rest, foundZero =>
    if b = false then boolScan rest true
    else if foundZero then false
    else boolScan rest foundZero

/-- The 32 bits of the four parsed octets of a mask string, most significant
first ([] when the string does not have 4 parts). -/
def maskBits (cs : JStr) : List Bool :=
  match splitDot cs with
  | [p0, p1, p2, p3] =>
      octetBits8 (octetValN p0) ++ octetBits8 (octetValN p1) ++
        octetBits8 (octetValN p2) ++ octetBits8 (octetValN p3)
  | _ => []

/-- The numeric value of a bit list, most significant first. -/
def bitsToNat (bs : List Bool) : Nat := bs.foldl (fun a b => 2 * a + cond b 1 0) 0

theorem maskScan_map_bitChar (bs : List Bool) :
    ∀ fz, maskScan (bs.map bitChar) fz = boolScan bs fz := by
  induction bs with
  | nil => intro fz; rfl
  | cons b rest ih =>
    intro fz
    cases b with
    | false => simp [maskScan, boolScan, bitChar, ih]
    | true =>
      cases fz with
      | false => simp [maskScan, boolScan, bitChar, ih]
      | true => simp [maskScan, boolScan, bitChar]

theorem boolScan_true_iff (bs : List Bool) :
    boolScan bs true = true ↔ ∀ b ∈ bs, b = false := by
  induction bs with
  | nil => simp [boolScan]
  | cons b rest ih =>
    cases b with
    | false => simp [boolScan, ih]
    | true => simp [boolScan]

theorem boolScan_false_iff (bs : List Bool) :
    boolScan bs false = true ↔
      ∃ k, k ≤ bs.length ∧
        bs = List.replicate k true ++ List.replicate (bs.length - k) false := by
  induction bs with
  | nil =>
    constructor
    · intro _; exact ⟨0, by simp⟩
    · intro _; rfl
  | cons b rest ih =>
    cases b with
    | false =>
      have h1 : boolScan (false :: rest) false = boolScan rest true := by
        simp [boolScan]
      rw [h1, boolScan_true_iff]
      constructor
      · intro hall
        refine ⟨0, by omega, ?_⟩
        simp only [List.replicate_zero, List.nil_append, List.length_cons,
          Nat.sub_zero]
        rw [List.replicate_succ]
        congr 1
        exact List.eq_replicate_of_mem hall
      · rintro ⟨k, hk, heq⟩
        cases k with
        | zero =>
          simp only [List.replicate_zero, List.nil_append, List.length_cons,
            Nat.sub_zero, List.replicate_succ] at heq
          have h2 : rest = List.replicate rest.length false := (List.cons.inj heq).2
          intro b hb
          rw [h2] at hb
          exact List.eq_of_mem_replicate hb
        | succ j =>
          rw [List.replicate_succ, List.cons_append] at heq
          cases heq
    | true =>
      have h1 : boolScan (true :: rest) false = boolScan rest false := by
        simp [boolScan]
      rw [h1, ih]
      constructor
      · rintro ⟨k, hk, heq⟩
        refine ⟨k + 1, by simp only [List.length_cons]; omega, ?_⟩
        simp only [List.length_cons, List.replicate_succ, List.cons_append]
        have h2 : rest.length + 1 - (k + 1) = rest.length - k := by omega
        rw [h2, ← heq]
      · rintro ⟨k, hk, heq⟩
        cases k with
        | zero =>
          simp only [List.replicate_zero, List.nil_append, List.length_cons,
            Nat.sub_zero, List.replicate_succ] at heq
          cases heq
        | succ j =>
          simp only [List.length_cons, List.replicate_succ, List.cons_append] at heq
          have h2 : rest = List.replicate j true ++
              List.replicate (rest.length + 1 - (j + 1)) false := (List.cons.inj heq).2
          refine ⟨j, by simp only [List.length_cons] at hk; omega, ?_⟩
          have h3 : rest.length + 1 - (j + 1) = rest.length - j := by omega
          rw [← h3, ← h2]

theorem bitsToNat_foldl_init (l : List Bool) :
    ∀ a : Nat, l.foldl (fun a b => 2 * a + cond b 1 0) a = a * 2 ^ l.length + bitsToNat l := by
  induction l with
  | nil => intro a; simp [bitsToNat]
  | cons b rest ih =>
    intro a
    simp only [List.foldl_cons, List.length_cons, bitsToNat]
    rw [ih (2 * a + cond b 1 0), ih (2 * 0 + cond b 1 0), pow_succ]
    ring

theorem bitsToNat_cons (b : Bool) (rest : List Bool) :
    bitsToNat (b :: rest) = cond b 1 0 * 2 ^ rest.length + bitsToNat rest := by
  simp only [bitsToNat, List.foldl_cons]
  rw [bitsToNat_foldl_init]
  simp only [bitsToNat]
  ring

theorem bitsToNat_append (l1 l2 : List Bool) :
    bitsToNat (l1 ++ l2) = bitsToNat l1 * 2 ^ l2.length + bitsToNat l2 := by
  simp only [bitsToNat, List.foldl_append]
  exact bitsToNat_foldl_init l2 _

theorem bitsToNat_replicate_false (k : Nat) :
    bitsToNat (List.replicate k false) = 0 := by
  induction k with
  | zero => rfl
  | succ j ih =>
    rw [List.replicate_succ, bitsToNat_cons, ih]
    simp

theorem bitsToNat_replicate_true (k : Nat) :
    bitsToNat (List.replicate k true) = 2 ^ k - 1 := by
  induction k with
  | zero => rfl
  | succ j ih =>
    rw [List.replicate_succ, bitsToNat_cons, ih, List.length_replicate]
    have h2 : 1 ≤ 2 ^ j := Nat.one_le_two_pow
    simp only [cond_true, one_mul, pow_succ]
    omega

theorem bitsToNat_octetBits8 : ∀ v, v < 256 → bitsToNat (octetBits8 v) = v := by decide

theorem bitsToNat_contig {k : Nat} (hk : k ≤ 32) :
    bitsToNat (List.replicate k true ++ List.replicate (32 - k) false) =
      4294967296 - 2 ^ (32 - k) := by
  rw [bitsToNat_append, bitsToNat_replicate_true, bitsToNat_replicate_false,
    List.length_replicate]
  have h1 : 2 ^ k * 2 ^ (32 - k) = 4294967296 := by
    rw [← pow_add]
    have : k + (32 - k) = 32 := by omega
    rw [this]
    norm_num
  have h2 : 1 ≤ 2 ^ k := Nat.one_le_two_pow
  rw [Nat.sub_mul, one_mul, h1, Nat.add_zero]

theorem octetBits8_length (v : Nat) : (octetBits8 v).length = 8 := rfl

theorem pad8_bits : ∀ m, m < 256 →
    padStart 8 '0' (natToBinChars m) = (octetBits8 m).map bitChar := by decide

theorem binOctetChars_of_parse {p : JStr} {v : Int} (hv : parseInt10 p = some v)
    (h0 : 0 ≤ v) (h255 : v ≤ 255) :
    binOctetChars p = (octetBits8 v.toNat).map bitChar := by
  simp only [binOctetChars, hv]
  have hnn : intToBinChars v = natToBinChars v.toNat := by
    simp [intToBinChars, not_lt.mpr h0]
  rw [hnn]
  exact pad8_bits v.toNat (by omega)

theorem contig_scan : ∀ k, k < 33 →
    boolScan (octetBits8 ((4294967296 - 2 ^ (32 - k)) / 16777216 % 256) ++
      octetBits8 ((4294967296 - 2 ^ (32 - k)) / 65536 % 256) ++
      octetBits8 ((4294967296 - 2 ^ (32 - k)) / 256 % 256) ++
      octetBits8 ((4294967296 - 2 ^ (32 - k)) % 256)) false = true := by decide

/-- C5 (as stated): validateSubnetMask propagates address-validation errors;
on an address-valid string it succeeds exactly when the 32-bit value of the
mask is a contiguous run of k one bits followed by zero bits, and fails with
the non-contiguous-mask error otherwise; the witness covers the mask
255.255.255.0 (prefix 24) and the mask 255.0.255.0. -/
theorem c5_validateMask (cs : JStr) :
    (∀ e, validateIpAddress cs = .error e → validateSubnetMask cs = .error e) ∧
    ((∃ t, validateIpAddress cs = .ok t) →
      (validateSubnetMask cs = .ok () ↔
        ∃ k, k ≤ 32 ∧ addrNat cs = 4294967296 - 2 ^ (32 - k)) ∧
      (validateSubnetMask cs ≠ .ok () →
        validateSubnetMask cs = .error .nonContiguousMask)) := by
  constructor
  · intro e he
    simp only [validateSubnetMask, he]
  · intro hvv
    obtain ⟨t, ht⟩ := hvv
    obtain ⟨hne, p0, p1, p2, p3, hps, hgood⟩ := valid_structure ⟨t, ht⟩
    obtain ⟨-, v0, hv0, hl0, hh0⟩ := octetGood_true_elim (hgood p0 (by rw [hps]; simp))
    obtain ⟨-, v1, hv1, hl1, hh1⟩ := octetGood_true_elim (hgood p1 (by rw [hps]; simp))
    obtain ⟨-, v2, hv2, hl2, hh2⟩ := octetGood_true_elim (hgood p2 (by rw [hps]; simp))
    obtain ⟨-, v3, hv3, hl3, hh3⟩ := octetGood_true_elim (hgood p3 (by rw [hps]; simp))
    rw [parseInt10_jsTrim] at hv0 hv1 hv2 hv3
    have hbits : maskBits cs = octetBits8 v0.toNat ++ octetBits8 v1.toNat ++
        octetBits8 v2.toNat ++ octetBits8 v3.toNat := by
      simp only [maskBits, hps, octetValN, hv0, hv1, hv2, hv3, Option.getD_some]
    have hchars : maskBinChars cs = (maskBits cs).map bitChar := by
      simp only [maskBinChars, hps, List.map_cons, List.map_nil, hbits,
        binOctetChars_of_parse hv0 hl0 hh0, binOctetChars_of_parse hv1 hl1 hh1,
        binOctetChars_of_parse hv2 hl2 hh2, binOctetChars_of_parse hv3 hl3 hh3,
        List.flatten_cons, List.flatten_nil, List.map_append, List.append_nil,
        List.append_assoc]
    have haddr : addrNat cs =
        v0.toNat * 16777216 + v1.toNat * 65536 + v2.toNat * 256 + v3.toNat := by
      simp only [addrNat, hps, octetValN, hv0, hv1, hv2, hv3, Option.getD_some]
    have hval : bitsToNat (maskBits cs) = addrNat cs := by
      rw [hbits, haddr]
      rw [bitsToNat_append, bitsToNat_append, bitsToNat_append]
      rw [bitsToNat_octetBits8 _ (by omega), bitsToNat_octetBits8 _ (by omega),
        bitsToNat_octetBits8 _ (by omega), bitsToNat_octetBits8 _ (by omega)]
      simp only [List.length_append, octetBits8_length]
      have hp8 : (2 : Nat) ^ 8 = 256 := by norm_num
      rw [hp8]
      ring
    have hlen : (maskBits cs).length = 32 := by
      rw [hbits]
      rfl
    have hscan : maskScan (maskBinChars cs) false = boolScan (maskBits cs) false := by
      rw [hchars, maskScan_map_bitChar]
    have hb0 : v0.toNat ≤ 255 := by omega
    have hb1 : v1.toNat ≤ 255 := by omega
    have hb2 : v2.toNat ≤ 255 := by omega
    have hb3 : v3.toNat ≤ 255 := by omega
    have hiff : maskScan (maskBinChars cs) false = true ↔
        ∃ k, k ≤ 32 ∧ addrNat cs = 4294967296 - 2 ^ (32 - k) := by
      rw [hscan]
      constructor
      · intro hs
        obtain ⟨k, hk, hdecomp⟩ := (boolScan_false_iff _).mp hs
        rw [hlen] at hk hdecomp
        exact ⟨k, hk, by rw [← hval, hdecomp, bitsToNat_contig hk]⟩
      · rintro ⟨k, hk, hM⟩
        have e0 : v0.toNat = addrNat cs / 16777216 % 256 := by omega
        have e1 : v1.toNat = addrNat cs / 65536 % 256 := by omega
        have e2 : v2.toNat = addrNat cs / 256 % 256 := by omega
        have e3 : v3.toNat = addrNat cs % 256 := by omega
        rw [hM] at e0 e1 e2 e3
        rw [hbits, e0, e1, e2, e3]
        exact contig_scan k (by omega)
    have hvd : validateSubnetMask cs =
        if maskScan (maskBinChars cs) false then Except.ok ()
        else Except.error ValidationError.nonContiguousMask := by
      simp only [validateSubnetMask, ht]
    refine ⟨?_, ?_⟩
    · rw [hvd]
      constructor
      · intro hok
        by_cases hs : maskScan (maskBinChars cs) false = true
        · exact hiff.mp hs
        · rw [if_neg hs] at hok
          cases hok
      · intro hex
        rw [if_pos (hiff.mpr hex)]
    · intro hne
      by_cases hs : maskScan (maskBinChars cs) false = true
      · exact absurd (by rw [hvd, if_pos hs]) hne
      · rw [hvd, if_neg hs]

theorem c5_validateMask_witness :
    validateSubnetMask (strChars "255.255.255.0") = .ok () ∧
    addrNat (strChars "255.255.255.0") = 4294967296 - 2 ^ (32 - 24) ∧
    validateSubnetMask (strChars "255.0.255.0") = .error .nonContiguousMask :=
  ⟨((c5_validateMask (strChars "255.255.255.0")).2
      ⟨strChars "255.255.255.0", by decide⟩).1.mpr ⟨24, by omega, by decide⟩,
   by decide,
   ((c5_validateMask (strChars "255.0.255.0")).2
      ⟨strChars "255.0.255.0", by decide⟩).2 (by decide)⟩

/-! ## Lemmas for the mismatch explanation fields -/

theorem validateSubnetMask_ok_imp {m : JStr} (h : validateSubnetMask m = .ok ()) :
    ∃ t, validateIpAddress m = .ok t := by
  cases hv : validateIpAddress m with
  | ok t => exact ⟨t, rfl⟩
  | error e =>
    rw [validateSubnetMask.eq_def, hv] at h
    cases h

theorem toUint32_jsAnd (x y : Int) :
    toUint32 (jsAnd x y) = and32 (toUint32 x) (toUint32 y) := by
  rw [jsAnd, toUint32_toInt32, toUint32_natCast (and32_lt _ _)]

theorem toUint32_jsOr (x y : Int) :
    toUint32 (jsOr x y) = or32 (toUint32 x) (toUint32 y) := by
  rw [jsOr, toUint32_toInt32, toUint32_natCast (or32_lt _ _)]

theorem intToIp_congr {x y : Int} (h : toUint32 x = toUint32 y) :
    intToIp x = intToIp y := by
  simp only [intToIp]
  rw [h]

theorem toUint32_add_congr {x y : Int} (c : Int) (h : toUint32 x = toUint32 y) :
    toUint32 (x + c) = toUint32 (y + c) := by
  simp only [toUint32] at *
  omega

theorem count_one_map_bitChar (bs : List Bool) :
    ((bs.map bitChar).count '1') = bs.count true := by
  induction bs with
  | nil => rfl
  | cons b rest ih =>
    cases b with
    | false => simp [bitChar, List.count_cons, ih]
    | true => simp [bitChar, List.count_cons, ih]

theorem count_one_joinDot4 (a b c d : JStr) :
    (joinDot [a, b, c, d]).count '1' =
      a.count '1' + b.count '1' + c.count '1' + d.count '1' := by
  show (a ++ '.' :: (b ++ '.' :: (c ++ '.' :: d))).count '1' = _
  simp [List.count_append, List.count_cons]
  omega

/-- C2: for valid address and network strings and a valid mask on which
isIpInNetwork is false, the fields computed by explainNetworkMismatch are
exactly: true network id = network AND mask, submitted address network id =
address AND mask, cidr = popcount of the mask bits, host bits = 32-bit
complement of the mask, broadcast = network id OR complement, first host =
network id + 1, last host = broadcast - 1 (all as 32-bit values rendered by
intToIp); masks of any prefix length, including 31 and 32, go through the
same arithmetic with no special case. -/
theorem c2_explainMismatch_fields {ip net mask : JStr}
    (hip : ∃ t, validateIpAddress ip = .ok t)
    (hnet : ∃ t, validateIpAddress net = .ok t)
    (hmv : validateSubnetMask mask = .ok ())
    (_hmiss : isIpInNetwork ip net mask = false) :
    toUint32 (mismatchFields ip net mask).expectedNetworkId =
      and32 (addrNat net) (addrNat mask) ∧
    toUint32 (mismatchFields ip net mask).ipNetworkId =
      and32 (addrNat ip) (addrNat mask) ∧
    (mismatchFields ip net mask).cidr = (maskBits mask).count true ∧
    (mismatchFields ip net mask).hostBits = 4294967295 - addrNat mask ∧
    toUint32 (mismatchFields ip net mask).broadcastInt =
      or32 (and32 (addrNat net) (addrNat mask)) (4294967295 - addrNat mask) ∧
    (mismatchFields ip net mask).broadcastAddress =
      intToIp ((or32 (and32 (addrNat net) (addrNat mask))
        (4294967295 - addrNat mask) : Nat) : Int) ∧
    (mismatchFields ip net mask).firstHost =
      intToIp (((and32 (addrNat net) (addrNat mask) : Nat) : Int) + 1) ∧
    (mismatchFields ip net mask).lastHost =
      intToIp (((or32 (and32 (addrNat net) (addrNat mask))
        (4294967295 - addrNat mask) : Nat) : Int) - 1) := by
  have hmask : ∃ t, validateIpAddress mask = .ok t := validateSubnetMask_ok_imp hmv
  obtain ⟨sa, hsa, hua, hlta⟩ := ipToInt_of_valid hip
  obtain ⟨sn, hsn, hun, hltn⟩ := ipToInt_of_valid hnet
  obtain ⟨sm, hsm, hum, hltm⟩ := ipToInt_of_valid hmask
  have hM : addrNat mask ≤ 4294967295 := by omega
  have hexp : toUint32 (mismatchFields ip net mask).expectedNetworkId =
      and32 (addrNat net) (addrNat mask) := by
    simp only [mismatchFields, hsa, hsn, hsm, optVal, Option.getD_some]
    rw [toUint32_jsAnd, hun, hum]
  have hipn : toUint32 (mismatchFields ip net mask).ipNetworkId =
      and32 (addrNat ip) (addrNat mask) := by
    simp only [mismatchFields, hsa, hsn, hsm, optVal, Option.getD_some]
    rw [toUint32_jsAnd, hua, hum]
  have hhost : (mismatchFields ip net mask).hostBits = 4294967295 - addrNat mask := by
    simp only [mismatchFields, hsa, hsn, hsm, optVal, Option.getD_some]
    rw [toUint32_jsNot, hum]
  have hbro : toUint32 (mismatchFields ip net mask).broadcastInt =
      or32 (and32 (addrNat net) (addrNat mask)) (4294967295 - addrNat mask) := by
    simp only [mismatchFields, hsa, hsn, hsm, optVal, Option.getD_some]
    rw [toUint32_jsOr, toUint32_jsAnd, hun, hum, toUint32_jsNot, hum,
      toUint32_natCast (by omega)]
  have hcid : (mismatchFields ip net mask).cidr = (maskBits mask).count true := by
    obtain ⟨-, p0, p1, p2, p3, hps, hgood⟩ := valid_structure hmask
    obtain ⟨-, v0, hv0, hl0, hh0⟩ := octetGood_true_elim (hgood p0 (by rw [hps]; simp))
    obtain ⟨-, v1, hv1, hl1, hh1⟩ := octetGood_true_elim (hgood p1 (by rw [hps]; simp))
    obtain ⟨-, v2, hv2, hl2, hh2⟩ := octetGood_true_elim (hgood p2 (by rw [hps]; simp))
    obtain ⟨-, v3, hv3, hl3, hh3⟩ := octetGood_true_elim (hgood p3 (by rw [hps]; simp))
    rw [parseInt10_jsTrim] at hv0 hv1 hv2 hv3
    have hbits : maskBits mask = octetBits8 v0.toNat ++ octetBits8 v1.toNat ++
        octetBits8 v2.toNat ++ octetBits8 v3.toNat := by
      simp only [maskBits, hps, octetValN, hv0, hv1, hv2, hv3, Option.getD_some]
    have h1 : (mismatchFields ip net mask).cidr = (ipToBinary mask).count '1' := by
      simp only [mismatchFields]
    rw [h1, ipToBinary, hps]
    simp only [List.map_cons, List.map_nil,
      binOctetChars_of_parse hv0 hl0 hh0, binOctetChars_of_parse hv1 hl1 hh1,
      binOctetChars_of_parse hv2 hl2 hh2, binOctetChars_of_parse hv3 hl3 hh3]
    rw [count_one_joinDot4, hbits]
    simp only [count_one_map_bitChar, List.count_append]
  have hbroa : (mismatchFields ip net mask).broadcastAddress =
      intToIp ((or32 (and32 (addrNat net) (addrNat mask))
        (4294967295 - addrNat mask) : Nat) : Int) := by
    have h1 : (mismatchFields ip net mask).broadcastAddress =
        intToIp (mismatchFields ip net mask).broadcastInt := by
      simp only [mismatchFields]
    rw [h1]
    exact intToIp_congr (by rw [hbro, toUint32_natCast (or32_lt _ _)])
  have hfirst : (mismatchFields ip net mask).firstHost =
      intToIp (((and32 (addrNat net) (addrNat mask) : Nat) : Int) + 1) := by
    have h1 : (mismatchFields ip net mask).firstHost =
        intToIp ((mismatchFields ip net mask).expectedNetworkId + 1) := by
      simp only [mismatchFields]
    rw [h1]
    refine intToIp_congr (toUint32_add_congr 1 ?_)
    rw [hexp, toUint32_natCast (and32_lt _ _)]
  have hlast : (mismatchFields ip net mask).lastHost =
      intToIp (((or32 (and32 (addrNat net) (addrNat mask))
        (4294967295 - addrNat mask) : Nat) : Int) - 1) := by
    have h1 : (mismatchFields ip net mask).lastHost =
        intToIp ((mismatchFields ip net mask).broadcastInt - 1) := by
      simp only [mismatchFields]
    rw [h1]
    have h2 := toUint32_add_congr (x := (mismatchFields ip net mask).broadcastInt)
      (y := ((or32 (and32 (addrNat net) (addrNat mask))
        (4294967295 - addrNat mask) : Nat) : Int)) (-1)
      (by rw [hbro, toUint32_natCast (or32_lt _ _)])
    have h3 : (mismatchFields ip net mask).broadcastInt + (-1) =
        (mismatchFields ip net mask).broadcastInt - 1 := by ring
    have h4 : ((or32 (and32 (addrNat net) (addrNat mask))
        (4294967295 - addrNat mask) : Nat) : Int) + (-1) =
        ((or32 (and32 (addrNat net) (addrNat mask))
        (4294967295 - addrNat mask) : Nat) : Int) - 1 := by ring
    rw [h3, h4] at h2
    exact intToIp_congr h2
  exact ⟨hexp, hipn, hcid, hhost, hbro, hbroa, hfirst, hlast⟩

theorem c2_explainMismatch_fields_witness :
    (mismatchFields (strChars "10.0.1.5") (strChars "10.0.0.0")
      (strChars "255.255.255.0")).firstHost =
      intToIp (((and32 (addrNat (strChars "10.0.0.0"))
        (addrNat (strChars "255.255.255.0")) : Nat) : Int) + 1) ∧
    (mismatchFields (strChars "10.0.1.5") (strChars "10.0.0.0")
      (strChars "255.255.255.0")).firstHost = strChars "10.0.0.1" ∧
    (mismatchFields (strChars "10.0.1.5") (strChars "10.0.0.0")
      (strChars "255.255.255.0")).lastHost = strChars "10.0.0.254" ∧
    (mismatchFields (strChars "10.0.1.5") (strChars "10.0.0.0")
      (strChars "255.255.255.0")).broadcastAddress = strChars "10.0.0.255" ∧
    (mismatchFields (strChars "10.0.1.5") (strChars "10.0.0.0")
      (strChars "255.255.255.0")).cidr = 24 ∧
    intToIp (mismatchFields (strChars "10.0.1.5") (strChars "10.0.0.0")
      (strChars "255.255.255.0")).expectedNetworkId = strChars "10.0.0.0" ∧
    intToIp (mismatchFields (strChars "10.0.1.5") (strChars "10.0.0.0")
      (strChars "255.255.255.0")).ipNetworkId = strChars "10.0.1.0" ∧
    (mismatchFields (strChars "10.0.0.7") (strChars "10.0.0.1")
      (strChars "255.255.255.255")).firstHost = strChars "10.0.0.2" ∧
    (mismatchFields (strChars "10.0.0.7") (strChars "10.0.0.1")
      (strChars "255.255.255.255")).lastHost = strChars "10.0.0.0" :=
  ⟨(c2_explainMismatch_fields ⟨strChars "10.0.1.5", by decide⟩
      ⟨strChars "10.0.0.0", by decide⟩ (by decide) (by decide)).2.2.2.2.2.2.1,
   by decide, by decide, by decide, by decide, by decide, by decide, by decide, by decide⟩

/-! ## Round trips between addresses and 32-bit integers -/

theorem natToChars_no_dot (n : Nat) : '.' ∉ natToChars n := by
  intro hm
  have := natToChars_all_digit n '.' hm
  exact absurd this (by decide)

theorem splitDot_joinDot_chars (a b c d : Nat) :
    splitDot (joinDot [natToChars a, natToChars b, natToChars c, natToChars d]) =
      [natToChars a, natToChars b, natToChars c, natToChars d] := by
  apply splitDot_joinDot
  · simp
  · intro p hp
    simp only [List.mem_cons, List.not_mem_nil, or_false] at hp
    rcases hp with rfl | rfl | rfl | rfl <;> exact natToChars_no_dot _

theorem intToIp_pack {v0 v1 v2 v3 : Nat} (h0 : v0 ≤ 255) (h1 : v1 ≤ 255)
    (h2 : v2 ≤ 255) (h3 : v3 ≤ 255) {s : Int}
    (hu : toUint32 s = v0 * 16777216 + v1 * 65536 + v2 * 256 + v3) :
    intToIp s = joinDot [natToChars v0, natToChars v1, natToChars v2, natToChars v3] := by
  simp only [intToIp, hu]
  have e0 : (v0 * 16777216 + v1 * 65536 + v2 * 256 + v3) / 16777216 % 256 = v0 := by omega
  have e1 : (v0 * 16777216 + v1 * 65536 + v2 * 256 + v3) / 65536 % 256 = v1 := by omega
  have e2 : (v0 * 16777216 + v1 * 65536 + v2 * 256 + v3) / 256 % 256 = v2 := by omega
  have e3 : (v0 * 16777216 + v1 * 65536 + v2 * 256 + v3) % 256 = v3 := by omega
  rw [e0, e1, e2, e3]

theorem binOctetChars_length_of_parse {p : JStr} {v : Int} (hv : parseInt10 p = some v)
    (hl : 0 ≤ v) (hh : v ≤ 255) : (binOctetChars p).length = 8 := by
  rw [binOctetChars_of_parse hv hl hh, List.length_map, octetBits8_length]

/-- Parsing back a rendered 32-bit value preserves it modulo 2 ^ 32. -/
theorem ipToInt_intToIp {x : Nat} (hx : x < 4294967296) :
    ∃ s : Int, ipToInt (intToIp (x : Int)) = some s ∧ toUint32 s = x := by
  have hxu : toUint32 (x : Int) = x := toUint32_natCast hx
  have hip : intToIp (x : Int) = joinDot [natToChars (x / 16777216 % 256),
      natToChars (x / 65536 % 256), natToChars (x / 256 % 256),
      natToChars (x % 256)] := by
    simp only [intToIp, hxu]
  have hps := splitDot_joinDot_chars (x / 16777216 % 256) (x / 65536 % 256)
    (x / 256 % 256) (x % 256)
  rw [← hip] at hps
  obtain ⟨s, hs, hu⟩ := ipToInt_parts hps
    (parseInt10_natToChars _) (by omega) (by omega)
    (parseInt10_natToChars _) (by omega) (by omega)
    (parseInt10_natToChars _) (by omega) (by omega)
    (parseInt10_natToChars _) (by omega) (by omega)
  refine ⟨s, hs, ?_⟩
  simp only [Int.toNat_natCast] at hu
  rw [hu]
  omega

/-- Distinct 32-bit values render to distinct address strings. -/
theorem intToIp_inj {x y : Nat} (hx : x < 4294967296) (hy : y < 4294967296)
    (hne : x ≠ y) : intToIp (x : Int) ≠ intToIp (y : Int) := by
  intro he
  obtain ⟨s, hs, hu⟩ := ipToInt_intToIp hx
  obtain ⟨s', hs', hu'⟩ := ipToInt_intToIp hy
  rw [he, hs'] at hs
  cases hs
  exact hne (by rw [← hu, hu'])

theorem c4_counterexample :
    ipToInt (strChars "255.0.0.0") = some (-16777216) ∧
    ((-16777216 : Int) < 0) ∧
    intToIp (optVal (ipToInt (strChars "010.1.1.1"))) ≠ strChars "010.1.1.1" := by
  refine ⟨by decide, by decide, by decide⟩

/-- C4 (amended): ipToInt and intToIp form a lossless mapping between
canonical dotted-decimal addresses and residues modulo 2 ^ 32: on a canonical
address the computed signed integer is congruent to the big-endian packing
and intToIp maps it back to the same string; for every one of the 2 ^ 32
values the string round trip preserves the value modulo 2 ^ 32 (ipToInt
itself returns a signed 32-bit value, not an unsigned one); and ipToBinary of
any valid address has exactly 35 characters. -/
theorem c4_roundtrip :
    (∀ v0 v1 v2 v3 : Nat, v0 ≤ 255 → v1 ≤ 255 → v2 ≤ 255 → v3 ≤ 255 →
      ∃ s : Int,
        ipToInt (joinDot [natToChars v0, natToChars v1, natToChars v2,
          natToChars v3]) = some s ∧
        toUint32 s = v0 * 16777216 + v1 * 65536 + v2 * 256 + v3 ∧
        intToIp s = joinDot [natToChars v0, natToChars v1, natToChars v2,
          natToChars v3]) ∧
    (∀ x : Nat, x < 4294967296 →
      ∃ s : Int, ipToInt (intToIp (x : Int)) = some s ∧ toUint32 s = x) ∧
    (∀ cs : JStr, (∃ t, validateIpAddress cs = .ok t) →
      (ipToBinary cs).length = 35) := by
  refine ⟨?_, ?_, ?_⟩
  · intro v0 v1 v2 v3 h0 h1 h2 h3
    have hps := splitDot_joinDot_chars v0 v1 v2 v3
    obtain ⟨s, hs, hu⟩ := ipToInt_parts hps
      (parseInt10_natToChars v0) (by positivity) (by exact_mod_cast h0)
      (parseInt10_natToChars v1) (by positivity) (by exact_mod_cast h1)
      (parseInt10_natToChars v2) (by positivity) (by exact_mod_cast h2)
      (parseInt10_natToChars v3) (by positivity) (by exact_mod_cast h3)
    simp only [Int.toNat_natCast] at hu
    exact ⟨s, hs, hu, intToIp_pack h0 h1 h2 h3 hu⟩
  · intro x hx
    exact ipToInt_intToIp hx
  · intro cs hv
    obtain ⟨-, p0, p1, p2, p3, hps, hgood⟩ := valid_structure hv
    obtain ⟨-, v0, hv0, hl0, hh0⟩ := octetGood_true_elim (hgood p0 (by rw [hps]; simp))
    obtain ⟨-, v1, hv1, hl1, hh1⟩ := octetGood_true_elim (hgood p1 (by rw [hps]; simp))
    obtain ⟨-, v2, hv2, hl2, hh2⟩ := octetGood_true_elim (hgood p2 (by rw [hps]; simp))
    obtain ⟨-, v3, hv3, hl3, hh3⟩ := octetGood_true_elim (hgood p3 (by rw [hps]; simp))
    rw [parseInt10_jsTrim] at hv0 hv1 hv2 hv3
    rw [ipToBinary, hps]
    simp only [List.map_cons, List.map_nil]
    show (binOctetChars p0 ++ '.' :: (binOctetChars p1 ++ '.' ::
      (binOctetChars p2 ++ '.' :: binOctetChars p3))).length = 35
    simp only [List.length_append, List.length_cons,
      binOctetChars_length_of_parse hv0 hl0 hh0,
      binOctetChars_length_of_parse hv1 hl1 hh1,
      binOctetChars_length_of_parse hv2 hl2 hh2,
      binOctetChars_length_of_parse hv3 hl3 hh3]

theorem c4_roundtrip_witness :
    (∃ s : Int,
      ipToInt (joinDot [natToChars 192, natToChars 168, natToChars 1,
        natToChars 10]) = some s ∧
      toUint32 s = 192 * 16777216 + 168 * 65536 + 1 * 256 + 10 ∧
      intToIp s = joinDot [natToChars 192, natToChars 168, natToChars 1,
        natToChars 10]) ∧
    (∃ s : Int, ipToInt (intToIp (4294967295 : Int)) = some s ∧
      toUint32 s = 4294967295) ∧
    (ipToBinary (strChars "255.255.255.0")).length = 35 :=
  ⟨c4_roundtrip.1 192 168 1 10 (by omega) (by omega) (by omega) (by omega),
   c4_roundtrip.2.1 4294967295 (by omega),
   c4_roundtrip.2.2 (strChars "255.255.255.0") ⟨strChars "255.255.255.0", by decide⟩⟩

/-! ## Disjoint bit ranges: alignment of the network id and the host offset -/

theorem andBitsF_aligned :
    ∀ f t a m, t ≤ f → m % 2 ^ t = 0 → andBitsF f a m % 2 ^ t = 0 := by
  intro f
  induction f with
  | zero =>
    intro t a m ht _
    interval_cases t
    simp [andBitsF]
  | succ g ih =>
    intro t a m ht hm
    cases t with
    | zero => simp [Nat.mod_one]
    | succ u =>
      obtain ⟨q, hq⟩ : 2 ^ (u + 1) ∣ m := Nat.dvd_of_mod_eq_zero hm
      have hq2 : m = q * 2 ^ u * 2 := by rw [hq, pow_succ]; ring
      have hm2 : m % 2 = 0 := by omega
      have hdiv : m / 2 = q * 2 ^ u := by omega
      have hmd : m / 2 % 2 ^ u = 0 := by rw [hdiv, Nat.mul_mod_left]
      have hX := ih u (a / 2) (m / 2) (by omega) hmd
      obtain ⟨q', hq'⟩ : 2 ^ u ∣ andBitsF g (a / 2) (m / 2) := Nat.dvd_of_mod_eq_zero hX
      simp only [andBitsF, hm2, Nat.mul_zero, Nat.add_zero]
      rw [hq', pow_succ]
      have heq : 2 * (2 ^ u * q') = q' * (2 ^ u * 2) := by ring
      rw [heq, Nat.mul_mod_left]

theorem orBitsF_zero : ∀ f a, a < 2 ^ f → orBitsF f a 0 = a := by
  intro f
  induction f with
  | zero => intro a ha; interval_cases a; rfl
  | succ g ih =>
    intro a ha
    have h2 : 2 ^ (g + 1) = 2 ^ g * 2 := pow_succ 2 g
    have hdiv : a / 2 < 2 ^ g := by omega
    simp only [orBitsF, Nat.zero_div, Nat.zero_mod, ih (a / 2) hdiv]
    omega

theorem orBitsF_disjoint :
    ∀ f t a b, t ≤ f → a < 2 ^ f → b < 2 ^ t → a % 2 ^ t = 0 →
      orBitsF f a b = a + b := by
  intro f
  induction f with
  | zero =>
    intro t a b ht ha hb _
    interval_cases t
    simp at ha hb
    simp [orBitsF, ha, hb]
  | succ g ih =>
    intro t a b ht ha hb hal
    cases t with
    | zero =>
      have hb0 : b = 0 := by simpa using hb
      rw [hb0, orBitsF_zero (g + 1) a ha, Nat.add_zero]
    | succ u =>
      obtain ⟨q, hq⟩ : 2 ^ (u + 1) ∣ a := Nat.dvd_of_mod_eq_zero hal
      have hq2 : a = q * 2 ^ u * 2 := by rw [hq, pow_succ]; ring
      have ha2 : a % 2 = 0 := by omega
      have hdiva : a / 2 = q * 2 ^ u := by omega
      have had : a / 2 % 2 ^ u = 0 := by rw [hdiva, Nat.mul_mod_left]
      have hfa : a / 2 < 2 ^ g := by
        have h2 : 2 ^ (g + 1) = 2 ^ g * 2 := pow_succ 2 g
        omega
      have hfb : b / 2 < 2 ^ u := by
        have h2 : 2 ^ (u + 1) = 2 ^ u * 2 := pow_succ 2 u
        omega
      have hrec := ih u (a / 2) (b / 2) (by omega) hfa hfb had
      simp only [orBitsF, hrec, ha2]
      omega

/-- Divisibility of the network id by the host span: the AND with an aligned
mask is aligned. -/
theorem and32_aligned {a m t : Nat} (ht : t ≤ 32) (hm : m % 2 ^ t = 0) :
    and32 a m % 2 ^ t = 0 := andBitsF_aligned 32 t a m ht hm

theorem or32_disjoint {a b t : Nat} (ht : t ≤ 32) (ha : a < 4294967296)
    (hb : b < 2 ^ t) (hal : a % 2 ^ t = 0) : or32 a b = a + b := by
  have h32 : (4294967296 : Nat) = 2 ^ 32 := by norm_num
  exact orBitsF_disjoint 32 t a b ht (by omega) hb hal

theorem c9_counterexample :
    generateIpInNetwork (0, 1) (strChars "10.0.0.0") (strChars "255.255.255.254") =
      strChars "10.0.0.1" ∧
    intToIp ((and32 (addrNat (strChars "10.0.0.0"))
      (addrNat (strChars "255.255.255.254")) : Nat) : Int) = strChars "10.0.0.0" ∧
    strChars "10.0.0.1" ≠ strChars "10.0.0.0" := by
  refine ⟨by decide, by decide, by decide⟩

/-- C9 (amended): for a valid network string and a valid contiguous mask of
prefix k drawn with a random value r = rn / rd in [0, 1): when the host span
2 ^ (32 - k) is at least 3 (k at most 30) the generator adds a host offset in
[1, span - 2] to the network id, so the produced address is never the network
id and never the broadcast; for a /31 mask it returns the network id plus one
(the broadcast of the pair), and for a /32 mask it returns the network id
OR-ed with 1 when the random draw is zero and the network id itself
otherwise; there is no underflow and no looping in any case. -/
theorem c9_generate {net mask : JStr} {rn rd k : Nat} (hr : rn < rd) (hk : k ≤ 32)
    (hnet : ∃ t, validateIpAddress net = .ok t)
    (hmask : ∃ t, validateIpAddress mask = .ok t)
    (hMv : addrNat mask = 4294967296 - 2 ^ (32 - k)) :
    (k ≤ 30 →
      ∃ off : Nat, 1 ≤ off ∧ off ≤ 2 ^ (32 - k) - 2 ∧
        generateIpInNetwork (rn, rd) net mask =
          intToIp ((and32 (addrNat net) (addrNat mask) + off : Nat) : Int) ∧
        generateIpInNetwork (rn, rd) net mask ≠
          intToIp ((and32 (addrNat net) (addrNat mask) : Nat) : Int) ∧
        generateIpInNetwork (rn, rd) net mask ≠
          intToIp ((and32 (addrNat net) (addrNat mask) + (2 ^ (32 - k) - 1) : Nat) : Int)) ∧
    (k = 31 →
      generateIpInNetwork (rn, rd) net mask =
        intToIp ((and32 (addrNat net) (addrNat mask) + 1 : Nat) : Int)) ∧
    (k = 32 →
      generateIpInNetwork (rn, rd) net mask =
        intToIp ((or32 (and32 (addrNat net) (addrNat mask))
          (if rn = 0 then 1 else 0) : Nat) : Int)) := by
  obtain ⟨sn, hsn, hun, hltn⟩ := ipToInt_of_valid hnet
  obtain ⟨sm, hsm, hum, hltm⟩ := ipToInt_of_valid hmask
  have h1k : 1 ≤ 2 ^ k := Nat.one_le_two_pow
  have hH1 : 1 ≤ 2 ^ (32 - k) := Nat.one_le_two_pow
  have hpow : 2 ^ k * 2 ^ (32 - k) = 4294967296 := by
    rw [← pow_add]
    have hks : k + (32 - k) = 32 := by omega
    rw [hks]
    norm_num
  have hHle : 2 ^ (32 - k) ≤ 4294967296 := by
    calc 2 ^ (32 - k) = 1 * 2 ^ (32 - k) := (one_mul _).symm
    _ ≤ 2 ^ k * 2 ^ (32 - k) := Nat.mul_le_mul_right _ h1k
    _ = 4294967296 := hpow
  have hMeq : addrNat mask = (2 ^ k - 1) * 2 ^ (32 - k) := by
    rw [hMv, Nat.sub_mul, one_mul, hpow]
  have hMalign : addrNat mask % 2 ^ (32 - k) = 0 := by rw [hMeq, Nat.mul_mod_left]
  have hPalign := and32_aligned (a := addrNat net) (by omega : 32 - k ≤ 32) hMalign
  have hPlt := and32_lt (addrNat net) (addrNat mask)
  obtain ⟨q, hq⟩ := Nat.dvd_of_mod_eq_zero hPalign
  have hqlt : q < 2 ^ k := by
    by_contra hq2
    push_neg at hq2
    have h5 : 2 ^ (32 - k) * 2 ^ k ≤ 2 ^ (32 - k) * q := Nat.mul_le_mul_left _ hq2
    have h6 : 2 ^ (32 - k) * 2 ^ k = 4294967296 := by rw [mul_comm]; exact hpow
    omega
  have hPH : and32 (addrNat net) (addrNat mask) + 2 ^ (32 - k) ≤ 4294967296 := by
    have h5 : 2 ^ (32 - k) * (q + 1) ≤ 2 ^ (32 - k) * 2 ^ k := Nat.mul_le_mul_left _ hqlt
    have h6 : 2 ^ (32 - k) * (q + 1) =
        and32 (addrNat net) (addrNat mask) + 2 ^ (32 - k) := by
      rw [Nat.mul_add, Nat.mul_one, ← hq]
    have h7 : 2 ^ (32 - k) * 2 ^ k = 4294967296 := by rw [mul_comm]; exact hpow
    omega
  have hgen : generateIpInNetwork (rn, rd) net mask =
      intToIp (jsOr (jsAnd sn sm)
        (jsFloorMul rn rd (((4294967295 - addrNat mask : Nat) : Int) - 1) + 1)) := by
    simp only [generateIpInNetwork, hsn, hsm, optVal, Option.getD_some, toUint32_jsNot, hum]
  have hPu : toUint32 (jsAnd sn sm) = and32 (addrNat net) (addrNat mask) := by
    rw [toUint32_jsAnd, hun, hum]
  refine ⟨?_, ?_, ?_⟩
  · -- host span at least 4
    intro hk30
    have hH4 : 4 ≤ 2 ^ (32 - k) := by
      have h5 : (2 : Nat) ^ 2 ≤ 2 ^ (32 - k) := Nat.pow_le_pow_right (by omega) (by omega)
      omega
    have hmrw : ((4294967295 - addrNat mask : Nat) : Int) - 1 =
        ((2 ^ (32 - k) - 2 : Nat) : Int) := by
      rw [hMv]
      omega
    have hfl : jsFloorMul rn rd ((2 ^ (32 - k) - 2 : Nat) : Int) =
        ((rn * (2 ^ (32 - k) - 2) / rd : Nat) : Int) := by
      simp only [jsFloorMul, if_pos (Int.natCast_nonneg _), Int.toNat_natCast]
    have hdivlt : rn * (2 ^ (32 - k) - 2) / rd < 2 ^ (32 - k) - 2 := by
      have hX : 0 < 2 ^ (32 - k) - 2 := by omega
      have h5 : rn * (2 ^ (32 - k) - 2) < rd * (2 ^ (32 - k) - 2) :=
        mul_lt_mul_of_pos_right hr hX
      have h6 : rd * (2 ^ (32 - k) - 2) = (2 ^ (32 - k) - 2) * rd := mul_comm _ _
      exact (Nat.div_lt_iff_lt_mul (by omega : 0 < rd)).mpr (h6 ▸ h5)
    have hoff2 : rn * (2 ^ (32 - k) - 2) / rd + 1 ≤ 2 ^ (32 - k) - 2 := by omega
    have hcast : ((rn * (2 ^ (32 - k) - 2) / rd : Nat) : Int) + 1 =
        ((rn * (2 ^ (32 - k) - 2) / rd + 1 : Nat) : Int) := by push_cast; ring
    have hcap1 : toUint32 ((rn * (2 ^ (32 - k) - 2) / rd + 1 : Nat) : Int) =
        rn * (2 ^ (32 - k) - 2) / rd + 1 := toUint32_natCast (by omega)
    have hcap2 : toUint32 ((and32 (addrNat net) (addrNat mask) +
        (rn * (2 ^ (32 - k) - 2) / rd + 1) : Nat) : Int) =
        and32 (addrNat net) (addrNat mask) + (rn * (2 ^ (32 - k) - 2) / rd + 1) :=
      toUint32_natCast (by omega)
    have hmain : generateIpInNetwork (rn, rd) net mask =
        intToIp ((and32 (addrNat net) (addrNat mask) +
          (rn * (2 ^ (32 - k) - 2) / rd + 1) : Nat) : Int) := by
      rw [hgen, hmrw, hfl, hcast]
      apply intToIp_congr
      rw [toUint32_jsOr, hPu, hcap1, hcap2]
      exact or32_disjoint (by omega) (by omega) (by omega) hPalign
    have hge1 : 1 ≤ rn * (2 ^ (32 - k) - 2) / rd + 1 := Nat.le_add_left 1 _
    have hxlt : and32 (addrNat net) (addrNat mask) +
        (rn * (2 ^ (32 - k) - 2) / rd + 1) < 4294967296 := by omega
    have hPlt2 : and32 (addrNat net) (addrNat mask) < 4294967296 := by omega
    have hblt : and32 (addrNat net) (addrNat mask) +
        (2 ^ (32 - k) - 1) < 4294967296 := by omega
    have hne1 : and32 (addrNat net) (addrNat mask) +
        (rn * (2 ^ (32 - k) - 2) / rd + 1) ≠
        and32 (addrNat net) (addrNat mask) := by omega
    have hne2 : and32 (addrNat net) (addrNat mask) +
        (rn * (2 ^ (32 - k) - 2) / rd + 1) ≠
        and32 (addrNat net) (addrNat mask) + (2 ^ (32 - k) - 1) := by omega
    refine ⟨rn * (2 ^ (32 - k) - 2) / rd + 1, hge1, hoff2, hmain, ?_, ?_⟩
    · rw [hmain]
      exact intToIp_inj hxlt hPlt2 hne1
    · rw [hmain]
      exact intToIp_inj hxlt hblt hne2
  · -- /31 mask
    intro hk31
    subst hk31
    have hmrw : ((4294967295 - addrNat mask : Nat) : Int) - 1 = 0 := by
      rw [hMv]
      norm_num
    have hfl : jsFloorMul rn rd 0 = 0 := by
      simp [jsFloorMul]
    have hmain : generateIpInNetwork (rn, rd) net mask =
        intToIp ((and32 (addrNat net) (addrNat mask) + 1 : Nat) : Int) := by
      rw [hgen, hmrw, hfl]
      apply intToIp_congr
      have h01 : (0 : Int) + 1 = ((1 : Nat) : Int) := by norm_num
      rw [h01, toUint32_jsOr, hPu, toUint32_natCast (by omega),
        toUint32_natCast (by omega)]
      exact or32_disjoint (t := 1) (by omega) (by omega) (by norm_num)
        (by simpa using hPalign)
    exact hmain
  · -- /32 mask
    intro hk32
    subst hk32
    have hmrw : ((4294967295 - addrNat mask : Nat) : Int) - 1 = -1 := by
      rw [hMv]
      norm_num
    have hfl : jsFloorMul rn rd (-1) = -(((rn + rd - 1) / rd : Nat) : Int) := by
      simp only [jsFloorMul, if_neg (by norm_num : ¬(0 : Int) ≤ -1)]
      norm_num
    by_cases hrn : rn = 0
    · subst hrn
      have hdiv : (0 + rd - 1) / rd = 0 := Nat.div_eq_of_lt (by omega)
      rw [hgen, hmrw, hfl, hdiv]
      apply intToIp_congr
      have h01 : -((0 : Nat) : Int) + 1 = ((1 : Nat) : Int) := by norm_num
      rw [h01, toUint32_jsOr, hPu, toUint32_natCast (by omega),
        toUint32_natCast (or32_lt _ _)]
      norm_num
    · have hdiv : (rn + rd - 1) / rd = 1 := by
        apply Nat.div_eq_of_lt_le
        · omega
        · omega
      rw [hgen, hmrw, hfl, hdiv]
      simp only [if_neg hrn]
      apply intToIp_congr
      have h01 : -((1 : Nat) : Int) + 1 = ((0 : Nat) : Int) := by norm_num
      rw [h01, toUint32_jsOr, hPu, toUint32_natCast (by omega),
        toUint32_natCast (or32_lt _ _)]

theorem c9_generate_witness :
    (∃ off : Nat, 1 ≤ off ∧ off ≤ 2 ^ (32 - 24) - 2 ∧
      generateIpInNetwork (1, 2) (strChars "10.0.0.0") (strChars "255.255.255.0") =
        intToIp ((and32 (addrNat (strChars "10.0.0.0"))
          (addrNat (strChars "255.255.255.0")) + off : Nat) : Int) ∧
      generateIpInNetwork (1, 2) (strChars "10.0.0.0") (strChars "255.255.255.0") ≠
        intToIp ((and32 (addrNat (strChars "10.0.0.0"))
          (addrNat (strChars "255.255.255.0")) : Nat) : Int) ∧
      generateIpInNetwork (1, 2) (strChars "10.0.0.0") (strChars "255.255.255.0") ≠
        intToIp ((and32 (addrNat (strChars "10.0.0.0"))
          (addrNat (strChars "255.255.255.0")) + (2 ^ (32 - 24) - 1) : Nat) : Int)) ∧
    generateIpInNetwork (1, 2) (strChars "10.0.0.0") (strChars "255.255.255.0") =
      strChars "10.0.0.128" :=
  ⟨(c9_generate (by omega) (by omega) ⟨strChars "10.0.0.0", by decide⟩
      ⟨strChars "255.255.255.0", by decide⟩ (by decide)).1 (by omega),
   by decide⟩


/-! ## Submit, continue and reset: state-machine lemmas -/

theorem handleSubmit_totalAttempts (st : GameState) :
    (handleSubmit st).totalAttempts = st.totalAttempts + 1 := by
  unfold handleSubmit
  cases hv : validateIpAddress st.userInput with
  | error e => simp [hv]
  | ok n =>
      cases hcb : isIpInNetwork (jsOrStr (some n) st.userInput) st.networkAddress
          st.subnetMask with
      | false => simp [hv, hcb]
      | true => simp [hv, hcb]

/-- The submission record appended by handleSubmit on a validation error. -/
def valErrorRec (st : GameState) (e : ValidationError) : SubmissionRec :=
  { generateResponse { st with errorMessage := [], totalAttempts := st.totalAttempts + 1 }
      false (strChars "Validation error: " ++ errMessage e) none none with
    attemptNumber := st.totalAttempts + 1 }

theorem handleSubmit_error_fields {st : GameState} {e : ValidationError}
    (hv : validateIpAddress st.userInput = .error e) :
    (handleSubmit st).score = st.score ∧
    (handleSubmit st).correctAnswers = st.correctAnswers ∧
    (handleSubmit st).networkAddress = st.networkAddress ∧
    (handleSubmit st).subnetMask = st.subnetMask ∧
    (handleSubmit st).userInput = st.userInput ∧
    (handleSubmit st).submissions = st.submissions ++ [valErrorRec st e] := by
  unfold handleSubmit
  simp [hv, valErrorRec]

theorem handleSubmit_ok_userInput {st : GameState} {n : JStr}
    (hv : validateIpAddress st.userInput = .ok n) :
    (handleSubmit st).userInput =
      (if isIpInNetwork (jsOrStr (some n) st.userInput) st.networkAddress st.subnetMask
       then st.userInput else []) := by
  unfold handleSubmit
  cases hcb : isIpInNetwork (jsOrStr (some n) st.userInput) st.networkAddress
      st.subnetMask with
  | false => simp [hv, hcb]
  | true => simp [hv, hcb]

theorem handleSubmit_correct_fields {st : GameState} {n : JStr}
    (hv : validateIpAddress st.userInput = .ok n)
    (hc : isIpInNetwork (jsOrStr (some n) st.userInput) st.networkAddress
      st.subnetMask = true) :
    (handleSubmit st).score = st.score + 1 ∧
    (handleSubmit st).correctAnswers = st.correctAnswers + 1 ∧
    (handleSubmit st).gameCompleted =
      (if 5 ≤ st.correctAnswers + 1 then true else st.gameCompleted) := by
  unfold handleSubmit
  simp [hv, hc]

theorem handleSubmit_score_eq {st : GameState} (h : st.score = st.correctAnswers) :
    (handleSubmit st).score = (handleSubmit st).correctAnswers := by
  unfold handleSubmit
  cases hv : validateIpAddress st.userInput with
  | error e => simp [hv, h]
  | ok n =>
      cases hcb : isIpInNetwork (jsOrStr (some n) st.userInput) st.networkAddress
          st.subnetMask with
      | false => simp [hv, hcb, h]
      | true => simp [hv, hcb, h]

theorem submitInput_completed {st : GameState} (hg : st.gameCompleted = true)
    (u : JStr) : submitInput u st = st := by
  unfold submitInput
  rw [if_pos hg]

theorem submitInput_correct {u : JStr} {st : GameState}
    (hg : st.gameCompleted = false) (hc : correctSubmission u st = true) :
    (submitInput u st).score = st.score + 1 ∧
    (submitInput u st).correctAnswers = st.correctAnswers + 1 ∧
    (submitInput u st).gameCompleted =
      (if 5 ≤ st.correctAnswers + 1 then true else st.gameCompleted) := by
  unfold correctSubmission at hc
  have hng : ¬ st.gameCompleted = true := by rw [hg]; exact Bool.false_ne_true
  unfold submitInput
  rw [if_neg hng]
  cases hv : validateIpAddress u with
  | error e =>
      simp only [hv] at hc
      exact Bool.noConfusion hc
  | ok n =>
      simp only [hv] at hc
      have h := @handleSubmit_correct_fields { st with userInput := u } n hv hc
      exact ⟨h.1, h.2.1, h.2.2⟩

theorem submitInput_score_eq {u : JStr} {st : GameState}
    (h : st.score = st.correctAnswers) :
    (submitInput u st).score = (submitInput u st).correctAnswers := by
  unfold submitInput
  by_cases hg : st.gameCompleted = true
  · rw [if_pos hg]
    exact h
  · rw [if_neg hg]
    exact @handleSubmit_score_eq { st with userInput := u } h

theorem initGame_counters (r : Rand4) (st : GameState) :
    (initGame r st).score = st.score ∧
    (initGame r st).correctAnswers = st.correctAnswers ∧
    (initGame r st).totalAttempts = st.totalAttempts ∧
    (initGame r st).gameCompleted = st.gameCompleted ∧
    (initGame r st).submissions = st.submissions :=
  ⟨rfl, rfl, rfl, rfl, rfl⟩

theorem continueToNextQuestion_counters (r : Rand4) (st : GameState) :
    (continueToNextQuestion r st).score = st.score ∧
    (continueToNextQuestion r st).correctAnswers = st.correctAnswers ∧
    (continueToNextQuestion r st).gameCompleted = st.gameCompleted := by
  unfold continueToNextQuestion
  by_cases h : st.correctAnswers < 5
  · rw [if_pos h]
    exact ⟨rfl, rfl, rfl⟩
  · rw [if_neg h]
    exact ⟨rfl, rfl, rfl⟩

/-- C6: handleSubmit counts every attempt: totalAttempts rises by exactly one
unconditionally, invalid input included; on a validation failure it appends a
submission record with isCorrect false carrying the validation-error message
and the new attempt number, leaves score, correctAnswers, the network address
and the subnet mask unchanged, and does not clear the input buffer; after a
successful validation the input buffer is cleared exactly when the judged
answer is incorrect. -/
theorem c6_submit_frame (st : GameState) (u : JStr) :
    (handleSubmit { st with userInput := u }).totalAttempts = st.totalAttempts + 1 ∧
    (∀ e, validateIpAddress u = .error e →
      (handleSubmit { st with userInput := u }).score = st.score ∧
      (handleSubmit { st with userInput := u }).correctAnswers = st.correctAnswers ∧
      (handleSubmit { st with userInput := u }).networkAddress = st.networkAddress ∧
      (handleSubmit { st with userInput := u }).subnetMask = st.subnetMask ∧
      (handleSubmit { st with userInput := u }).userInput = u ∧
      ∃ rec : SubmissionRec,
        (handleSubmit { st with userInput := u }).submissions =
          st.submissions ++ [rec] ∧
        rec.isCorrect = false ∧
        rec.message = strChars "Validation error: " ++ errMessage e ∧
        rec.attemptNumber = st.totalAttempts + 1) ∧
    (∀ n, validateIpAddress u = .ok n →
      (handleSubmit { st with userInput := u }).userInput =
        (if isIpInNetwork (jsOrStr (some n) u) st.networkAddress st.subnetMask
         then u else [])) := by
  refine ⟨handleSubmit_totalAttempts { st with userInput := u }, ?_, ?_⟩
  · intro e hv
    have h := @handleSubmit_error_fields { st with userInput := u } e hv
    exact ⟨h.1, h.2.1, h.2.2.1, h.2.2.2.1, h.2.2.2.2.1,
      ⟨valErrorRec { st with userInput := u } e, h.2.2.2.2.2, rfl, rfl, rfl⟩⟩
  · intro n hv
    exact @handleSubmit_ok_userInput { st with userInput := u } n hv

theorem c6_submit_frame_witness :
    (handleSubmit { blankState with userInput := strChars "999.1.1.1" }).totalAttempts =
      blankState.totalAttempts + 1 ∧
    (handleSubmit { blankState with userInput := strChars "999.1.1.1" }).score =
      blankState.score ∧
    (handleSubmit { blankState with userInput := strChars "999.1.1.1" }).userInput =
      strChars "999.1.1.1" ∧
    ∃ rec : SubmissionRec,
      (handleSubmit { blankState with userInput := strChars "999.1.1.1" }).submissions =
        blankState.submissions ++ [rec] ∧
      rec.isCorrect = false ∧
      rec.message = strChars "Validation error: " ++ errMessage (.outOfRange 1) ∧
      rec.attemptNumber = blankState.totalAttempts + 1 :=
  have h := c6_submit_frame blankState (strChars "999.1.1.1")
  have h2 := h.2.1 (.outOfRange 1) (by decide)
  ⟨h.1, h2.1, h2.2.2.2.2.1, h2.2.2.2.2.2⟩

/-- C7: a fresh session has totalAttempts 0, score 0 and gameCompleted false;
from a fresh session, five correct submissions with a continue step between
consecutive ones drive correctAnswers to 5 and set gameCompleted; the
completed session is terminal: every further submit is a no-op that changes
nothing. -/
theorem c7_session_flow (r0 r1 r2 r3 r4 : Rand4) (u1 u2 u3 u4 u5 : JStr)
    (s0 s1 t1 s2 t2 s3 t3 s4 t4 s5 : GameState)
    (hs0 : s0 = freshSession r0)
    (hc1 : correctSubmission u1 s0 = true) (hs1 : s1 = submitInput u1 s0)
    (ht1 : t1 = continueToNextQuestion r1 s1)
    (hc2 : correctSubmission u2 t1 = true) (hs2 : s2 = submitInput u2 t1)
    (ht2 : t2 = continueToNextQuestion r2 s2)
    (hc3 : correctSubmission u3 t2 = true) (hs3 : s3 = submitInput u3 t2)
    (ht3 : t3 = continueToNextQuestion r3 s3)
    (hc4 : correctSubmission u4 t3 = true) (hs4 : s4 = submitInput u4 t3)
    (ht4 : t4 = continueToNextQuestion r4 s4)
    (hc5 : correctSubmission u5 t4 = true) (hs5 : s5 = submitInput u5 t4) :
    s0.totalAttempts = 0 ∧ s0.score = 0 ∧ s0.gameCompleted = false ∧
    s5.correctAnswers = 5 ∧ s5.gameCompleted = true ∧
    (∀ u, submitInput u s5 = s5) := by
  have h0g : s0.gameCompleted = false := by rw [hs0]; rfl
  have h0c : s0.correctAnswers = 0 := by rw [hs0]; rfl
  have h0t : s0.totalAttempts = 0 := by rw [hs0]; rfl
  have h0s : s0.score = 0 := by rw [hs0]; rfl
  have h1 := submitInput_correct h0g hc1
  have h1c : s1.correctAnswers = 1 := by rw [hs1, h1.2.1, h0c]
  have h1g : s1.gameCompleted = false := by
    rw [hs1, h1.2.2, h0c, h0g]; decide
  have hq1 := continueToNextQuestion_counters r1 s1
  have t1c : t1.correctAnswers = 1 := by rw [ht1, hq1.2.1, h1c]
  have t1g : t1.gameCompleted = false := by rw [ht1, hq1.2.2, h1g]
  have h2 := submitInput_correct t1g hc2
  have h2c : s2.correctAnswers = 2 := by rw [hs2, h2.2.1, t1c]
  have h2g : s2.gameCompleted = false := by
    rw [hs2, h2.2.2, t1c, t1g]; decide
  have hq2 := continueToNextQuestion_counters r2 s2
  have t2c : t2.correctAnswers = 2 := by rw [ht2, hq2.2.1, h2c]
  have t2g : t2.gameCompleted = false := by rw [ht2, hq2.2.2, h2g]
  have h3 := submitInput_correct t2g hc3
  have h3c : s3.correctAnswers = 3 := by rw [hs3, h3.2.1, t2c]
  have h3g : s3.gameCompleted = false := by
    rw [hs3, h3.2.2, t2c, t2g]; decide
  have hq3 := continueToNextQuestion_counters r3 s3
  have t3c : t3.correctAnswers = 3 := by rw [ht3, hq3.2.1, h3c]
  have t3g : t3.gameCompleted = false := by rw [ht3, hq3.2.2, h3g]
  have h4 := submitInput_correct t3g hc4
  have h4c : s4.correctAnswers = 4 := by rw [hs4, h4.2.1, t3c]
  have h4g : s4.gameCompleted = false := by
    rw [hs4, h4.2.2, t3c, t3g]; decide
  have hq4 := continueToNextQuestion_counters r4 s4
  have t4c : t4.correctAnswers = 4 := by rw [ht4, hq4.2.1, h4c]
  have t4g : t4.gameCompleted = false := by rw [ht4, hq4.2.2, h4g]
  have h5 := submitInput_correct t4g hc5
  have h5c : s5.correctAnswers = 5 := by rw [hs5, h5.2.1, t4c]
  have h5g : s5.gameCompleted = true := by
    rw [hs5, h5.2.2, t4c, t4g]; decide
  exact ⟨h0t, h0s, h0g, h5c, h5g, fun u => submitInput_completed h5g u⟩

/-- The random draw used in the concrete session run: mask 255.255.255.0 and
network 10.0.0.0. -/
def c7r : Rand4 := ⟨(0, 1), (10, 256), (0, 1), (0, 1)⟩

/-- The concrete answer submitted in every round of the session run. -/
def c7u : JStr := strChars "10.0.0.1"

def c7s0 : GameState := freshSession c7r

def c7s1 : GameState := submitInput c7u c7s0

def c7t1 : GameState := continueToNextQuestion c7r c7s1

def c7s2 : GameState := submitInput c7u c7t1

def c7t2 : GameState := continueToNextQuestion c7r c7s2

def c7s3 : GameState := submitInput c7u c7t2

def c7t3 : GameState := continueToNextQuestion c7r c7s3

def c7s4 : GameState := submitInput c7u c7t3

def c7t4 : GameState := continueToNextQuestion c7r c7s4

def c7s5 : GameState := submitInput c7u c7t4

theorem c7_session_flow_witness :
    c7s0.totalAttempts = 0 ∧ c7s0.score = 0 ∧ c7s0.gameCompleted = false ∧
    c7s5.correctAnswers = 5 ∧ c7s5.gameCompleted = true ∧
    submitInput (strChars "8.8.8.8") c7s5 = c7s5 :=
  have h := c7_session_flow c7r c7r c7r c7r c7r c7u c7u c7u c7u c7u
    c7s0 c7s1 c7t1 c7s2 c7t2 c7s3 c7t3 c7s4 c7t4 c7s5
    rfl (by decide) rfl rfl (by decide) rfl rfl (by decide) rfl rfl
    (by decide) rfl rfl (by decide) rfl
  ⟨h.1, h.2.1, h.2.2.1, h.2.2.2.1, h.2.2.2.2.1, h.2.2.2.2.2 (strChars "8.8.8.8")⟩

theorem c8_counterexample :
    ({ blankState with userInput := strChars "1.2.3.4" } : GameState).waitingForContinue
      = false ∧
    ({ blankState with userInput := strChars "1.2.3.4" } : GameState).correctAnswers
      < 5 ∧
    continueToNextQuestion (Rand4.mk (0, 1) (0, 1) (0, 1) (0, 1))
      { blankState with userInput := strChars "1.2.3.4" } ≠
      { blankState with userInput := strChars "1.2.3.4" } := by
  exact ⟨rfl, by decide, by decide⟩

/-- C8 (amended): continueToNextQuestion checks only whether correctAnswers is
below five: when correctAnswers is at least five it is a no-op leaving the
whole state unchanged; when correctAnswers is below five it regenerates via
initGame in any state, including states not awaiting a continue, keeping the
counters, the completion flag and the history while clearing the input
buffer, the error message, the current response and the continue flag. -/
theorem c8_continue (r : Rand4) (st : GameState) :
    (5 ≤ st.correctAnswers → continueToNextQuestion r st = st) ∧
    (st.correctAnswers < 5 →
      continueToNextQuestion r st = initGame r st ∧
      (continueToNextQuestion r st).score = st.score ∧
      (continueToNextQuestion r st).correctAnswers = st.correctAnswers ∧
      (continueToNextQuestion r st).totalAttempts = st.totalAttempts ∧
      (continueToNextQuestion r st).gameCompleted = st.gameCompleted ∧
      (continueToNextQuestion r st).submissions = st.submissions ∧
      (continueToNextQuestion r st).userInput = [] ∧
      (continueToNextQuestion r st).errorMessage = [] ∧
      (continueToNextQuestion r st).currentResponse = none ∧
      (continueToNextQuestion r st).waitingForContinue = false) := by
  constructor
  · intro h
    unfold continueToNextQuestion
    rw [if_neg (by omega)]
  · intro h
    unfold continueToNextQuestion
    rw [if_pos h]
    exact ⟨rfl, rfl, rfl, rfl, rfl, rfl, rfl, rfl, rfl, rfl⟩

theorem c8_continue_witness :
    continueToNextQuestion (Rand4.mk (0, 1) (0, 1) (0, 1) (0, 1))
      { blankState with correctAnswers := 5 } =
      { blankState with correctAnswers := 5 } :=
  (c8_continue (Rand4.mk (0, 1) (0, 1) (0, 1) (0, 1))
    { blankState with correctAnswers := 5 }).1 (by decide)

/-- The session states reachable from a fresh session by any sequence of
submits, continues and resets. -/
inductive Reachable : GameState → Prop where
  | fresh (r : Rand4) : Reachable (freshSession r)
  | submit (u : JStr) {st : GameState} : Reachable st → Reachable (submitInput u st)
  | next (r : Rand4) {st : GameState} : Reachable st → Reachable (continueToNextQuestion r st)
  | reset (r : Rand4) {st : GameState} : Reachable st → Reachable (handleReset r st)

/-- C10: in every session state reachable from a fresh session by submit,
continue and reset operations, score equals correctAnswers: both start at
zero, a correct submission increments both together, and a reset zeroes both
together. -/
theorem c10_score_invariant {st : GameState} (h : Reachable st) :
    st.score = st.correctAnswers := by
  induction h with
  | fresh r => rfl
  | submit u hst ih => exact submitInput_score_eq ih
  | next r hst ih =>
      rename_i st'
      have hq := continueToNextQuestion_counters r st'
      rw [hq.1, hq.2.1]
      exact ih
  | reset r hst ih => rfl

theorem c10_score_invariant_witness :
    (submitInput (strChars "1.2.3.4")
      (freshSession (Rand4.mk (0, 1) (0, 1) (0, 1) (0, 1)))).score =
    (submitInput (strChars "1.2.3.4")
      (freshSession (Rand4.mk (0, 1) (0, 1) (0, 1) (0, 1)))).correctAnswers :=
  c10_score_invariant
    (Reachable.submit (strChars "1.2.3.4")
      (Reachable.fresh (Rand4.mk (0, 1) (0, 1) (0, 1) (0, 1))))
